import Mathlib

/-!
Verification of the whisper messenger's delivery plane against its Rust
source.  Byte strings are modelled as `List Nat` (each entry a byte value),
machine words as `Nat` reduced modulo `2 ^ 32` or `2 ^ 64` where the source
wraps.  Library primitives the source calls (SHA-512, X25519, Ed25519 public
key derivation, XSalsa20-Poly1305 secretbox) are embedded from their public
specifications (FIPS 180-4, RFC 7748, RFC 8032, the NaCl secretbox
construction), since the programs under `src/crypto` and `src/identity` are
thin wrappers around them.
-/

set_option maxRecDepth 100000
set_option maxHeartbeats 2000000

/-- Addition of 64-bit words with wrap-around. -/
def add64 (a b : Nat) : Nat := (a + b) % 18446744073709551616

/-- Right rotation of a 64-bit word. -/
def rotr64 (x n : Nat) : Nat :=
  ((x >>> n) ||| (x <<< (64 - n))) % 18446744073709551616

/-- Bitwise complement of a 64-bit word. -/
def not64 (x : Nat) : Nat := x ^^^ 18446744073709551615

/-- Big-endian value of a byte list. -/
def beWord (bs : List Nat) : Nat := bs.foldl (fun acc b => acc * 256 + b) 0

/-- Big-endian serialization of `x` into `n` bytes. -/
def beBytes (n x : Nat) : List Nat :=
  (List.range n).reverse.map (fun i => x / 256 ^ i % 256)

/-- Little-endian value of a byte list. -/
def leWord (bs : List Nat) : Nat := bs.foldr (fun b acc => b + 256 * acc) 0

/-- Little-endian serialization of `x` into `n` bytes. -/
def leBytes (n x : Nat) : List Nat :=
  (List.range n).map (fun i => x / 256 ^ i % 256)

/-- Split a list into chunks of `n` elements (fuel-based recursion). -/
def chunkFuel : Nat → Nat → List Nat → List (List Nat)
  | 0, _, _ => []
  | _, _, [] => []
  | fuel + 1, n, l => l.take n :: chunkFuel fuel n (l.drop n)

/-- Split a byte list into chunks of `n` bytes. -/
def chunks (n : Nat) (l : List Nat) : List (List Nat) := chunkFuel l.length n l

/-- SHA-512 round constants (FIPS 180-4). -/
def sha512K : List Nat :=
  [4794697086780616226, 8158064640168781261, 13096744586834688815,
   16840607885511220156, 4131703408338449720, 6480981068601479193,
   10538285296894168987, 12329834152419229976, 15566598209576043074,
   1334009975649890238, 2608012711638119052, 6128411473006802146,
   8268148722764581231, 9286055187155687089, 11230858885718282805,
   13951009754708518548, 16472876342353939154, 17275323862435702243,
   1135362057144423861, 2597628984639134821, 3308224258029322869,
   5365058923640841347, 6679025012923562964, 8573033837759648693,
   10970295158949994411, 12119686244451234320, 12683024718118986047,
   13788192230050041572, 14330467153632333762, 15395433587784984357,
   489312712824947311, 1452737877330783856, 2861767655752347644,
   3322285676063803686, 5560940570517711597, 5996557281743188959,
   7280758554555802590, 8532644243296465576, 9350256976987008742,
   10552545826968843579, 11727347734174303076, 12113106623233404929,
   14000437183269869457, 14369950271660146224, 15101387698204529176,
   15463397548674623760, 17586052441742319658, 1182934255886127544,
   1847814050463011016, 2177327727835720531, 2830643537854262169,
   3796741975233480872, 4115178125766777443, 5681478168544905931,
   6601373596472566643, 7507060721942968483, 8399075790359081724,
   8693463985226723168, 9568029438360202098, 10144078919501101548,
   10430055236837252648, 11840083180663258601, 13761210420658862357,
   14299343276471374635, 14566680578165727644, 15097957966210449927,
   16922976911328602910, 17689382322260857208, 500013540394364858,
   748580250866718886, 1242879168328830382, 1977374033974150939,
   2944078676154940804, 3659926193048069267, 4368137639120453308,
   4836135668995329356, 5532061633213252278, 6448918945643986474,
   6902733635092675308, 7801388544844847127]

/-- SHA-512 initial hash values (FIPS 180-4). -/
def sha512IV : List Nat :=
  [7640891576956012808, 13503953896175478587,
   4354685564936845355, 11912009170470909681,
   5840696475078001361, 11170449401992604703,
   2270897969802886507, 6620516959819538809]

/-- SHA-512 padding: append `0x80`, zeros, and the 128-bit big-endian bit
length, reaching a multiple of 128 bytes. -/
def sha512Pad (msg : List Nat) : List Nat :=
  let l := msg.length
  let zeros := (128 - (l + 17) % 128) % 128
  msg ++ [128] ++ List.replicate zeros 0 ++ beBytes 16 (l * 8)

/-- Message-schedule extension; `w` holds the schedule so far in reverse. -/
def sha512Ext (w : List Nat) : Nat → List Nat
  | 0 => w
  | t + 1 =>
    let s0 := rotr64 (w.getD 14 0) 1 ^^^ rotr64 (w.getD 14 0) 8 ^^^ (w.getD 14 0 >>> 7)
    let s1 := rotr64 (w.getD 1 0) 19 ^^^ rotr64 (w.getD 1 0) 61 ^^^ (w.getD 1 0 >>> 6)
    sha512Ext ((add64 (add64 (w.getD 15 0) s0) (add64 (w.getD 6 0) s1)) :: w) t

/-- One SHA-512 round, acting on the state `[a,b,c,d,e,f,g,h]` with a round
constant and a schedule word. -/
def sha512Round (st : List Nat) (kw : Nat × Nat) : List Nat :=
  match st with
  | [a, b, c, d, e, f, g, h] =>
    let s1 := rotr64 e 14 ^^^ rotr64 e 18 ^^^ rotr64 e 41
    let ch := (e &&& f) ^^^ (not64 e &&& g)
    let t1 := add64 (add64 (add64 h s1) (add64 ch kw.1)) kw.2
    let s0 := rotr64 a 28 ^^^ rotr64 a 34 ^^^ rotr64 a 39
    let maj := (a &&& b) ^^^ (a &&& c) ^^^ (b &&& c)
    let t2 := add64 s0 maj
    [add64 t1 t2, a, b, c, add64 d t1, e, f, g]
  | _ => st

/-- Compress one 128-byte block into the running hash state. -/
def sha512Compress (h : List Nat) (block : List Nat) : List Nat :=
  let w16 := (chunks 8 block).map beWord
  let w := (sha512Ext w16.reverse 64).reverse
  let st := (sha512K.zip w).foldl sha512Round h
  List.zipWith add64 h st

/-- SHA-512 of a byte list (FIPS 180-4), producing 64 bytes. -/
def sha512 (msg : List Nat) : List Nat :=
  ((chunks 128 (sha512Pad msg)).foldl sha512Compress sha512IV).flatMap (beBytes 8)

/-- The field prime of Curve25519, `2 ^ 255 - 19`. -/
def p25519 : Nat := 2 ^ 255 - 19

/-- Field addition modulo `p25519`. -/
def fadd (a b : Nat) : Nat := (a + b) % p25519

/-- Field subtraction modulo `p25519`. -/
def fsub (a b : Nat) : Nat := (a + (p25519 - b % p25519)) % p25519

/-- Field multiplication modulo `p25519`. -/
def fmul (a b : Nat) : Nat := a * b % p25519

/-- Evaluation helper: pattern-match on a `Nat` before passing it on, so that
kernel reduction normalizes it to a literal instead of stacking thunks.
Semantically the identity continuation call (`strictNat n f = f n`). -/
def strictNat {α : Sort _} (n : Nat) (f : Nat → α) : α :=
  match n with
  | 0 => f 0
  | m + 1 => f (m + 1)

/-- Square-and-multiply loop over exponent bits, most significant first. -/
def fpowLoop (b : Nat) : List Nat → Nat → Nat
  | [], acc => acc
  | bit :: bits, acc =>
    strictNat (if bit = 1 then fmul (fmul acc acc) b else fmul acc acc) fun a =>
    fpowLoop b bits a

/-- Field exponentiation modulo `p25519` by binary square-and-multiply,
for exponents below `2 ^ 256`. -/
def fpow (b e : Nat) : Nat :=
  fpowLoop b ((List.range 256).reverse.map (fun t => e / 2 ^ t % 2)) 1

/-- Field inverse modulo `p25519` via Fermat's little theorem. -/
def finv (x : Nat) : Nat := fpow x (p25519 - 2)

/-- X25519 scalar clamping: clear the low three bits, clear bit 255, set bit
254 (RFC 7748; applied internally by libsodium's `crypto_scalarmult_base`). -/
def clampScalar (k : Nat) : Nat := 2 ^ 254 + k % 2 ^ 254 / 8 * 8

/-- State of the Montgomery ladder. -/
structure MontState where
  x2 : Nat
  z2 : Nat
  x3 : Nat
  z3 : Nat

/-- One Montgomery ladder step on Curve25519 (RFC 7748 formulas). -/
def montStep (x1 : Nat) (s : MontState) : MontState :=
  let a := fadd s.x2 s.z2
  let aa := fmul a a
  let b := fsub s.x2 s.z2
  let bb := fmul b b
  let e := fsub aa bb
  let c := fadd s.x3 s.z3
  let d := fsub s.x3 s.z3
  let da := fmul d a
  let cb := fmul c b
  let xx3 := fmul (fadd da cb) (fadd da cb)
  let zz3 := fmul x1 (fmul (fsub da cb) (fsub da cb))
  let xx2 := fmul aa bb
  let zz2 := fmul e (fadd aa (fmul 121665 e))
  ⟨xx2, zz2, xx3, zz3⟩

/-- Montgomery ladder step with conditional swap driven by the scalar bit. -/
def montBit (x1 : Nat) (s : MontState) (bit : Nat) : MontState :=
  if bit = 1 then
    let t := montStep x1 ⟨s.x3, s.z3, s.x2, s.z2⟩
    ⟨t.x3, t.z3, t.x2, t.z2⟩
  else montStep x1 s

/-- Montgomery ladder over a list of scalar bits, most significant first.
Each state component is forced through `strictNat` so kernel evaluation of
concrete inputs runs in bounded stack depth; `montLoop x1 bits s` equals
`bits.foldl (montBit x1) s`. -/
def montLoop (x1 : Nat) : List Nat → MontState → MontState
  | [], s => s
  | bit :: bits, s =>
    let t := montBit x1 s bit
    strictNat t.x2 fun a =>
    strictNat t.z2 fun b =>
    strictNat t.x3 fun c =>
    strictNat t.z3 fun d =>
    montLoop x1 bits ⟨a, b, c, d⟩

/-- X25519 scalar multiplication of the base point `u = 9` by the clamped
scalar encoded in `kbytes` (little-endian), as `crypto_scalarmult_base`. -/
def x25519Base (kbytes : List Nat) : List Nat :=
  let k := clampScalar (leWord kbytes)
  let bits := (List.range 255).reverse.map (fun t => k / 2 ^ t % 2)
  let s := montLoop 9 bits ⟨1, 0, 9, 1⟩
  leBytes 32 (fmul s.x2 (finv s.z2))

/-- The Edwards curve constant `d` of edwards25519 (RFC 8032). -/
def edD : Nat :=
  37095705934669439343138083508754565189542113879843219016388785533085940283555

/-- A point of edwards25519 in extended homogeneous coordinates. -/
structure EdPoint where
  x : Nat
  y : Nat
  z : Nat
  t : Nat

/-- The edwards25519 base point B (RFC 8032). -/
def edB : EdPoint :=
  ⟨15112221349535400772501151409588531511454012693041857206046113283949847762202,
   46316835694926478169428394003475163141307993866256225615783033603165251855960,
   1,
   fmul 15112221349535400772501151409588531511454012693041857206046113283949847762202
     46316835694926478169428394003475163141307993866256225615783033603165251855960⟩

/-- Addition on edwards25519 in extended coordinates (add-2008-hwcd-3). -/
def edAdd (pp qq : EdPoint) : EdPoint :=
  let a := fmul (fsub pp.y pp.x) (fsub qq.y qq.x)
  let b := fmul (fadd pp.y pp.x) (fadd qq.y qq.x)
  let c := fmul (fmul pp.t (fmul 2 edD)) qq.t
  let d := fmul (fmul pp.z 2) qq.z
  let e := fsub b a
  let f := fsub d c
  let g := fadd d c
  let h := fadd b a
  ⟨fmul e f, fmul g h, fmul f g, fmul e h⟩

/-- Doubling on edwards25519 in extended coordinates (dbl-2008-hwcd). -/
def edDbl (pp : EdPoint) : EdPoint :=
  let a := fmul pp.x pp.x
  let b := fmul pp.y pp.y
  let c := fmul 2 (fmul pp.z pp.z)
  let h := fadd a b
  let e := fsub h (fmul (fadd pp.x pp.y) (fadd pp.x pp.y))
  let g := fsub a b
  let f := fadd c g
  ⟨fmul e f, fmul g h, fmul f g, fmul e h⟩

/-- One double-and-add step of the edwards25519 base-point multiplication. -/
def edBit (acc : EdPoint) (bit : Nat) : EdPoint :=
  let d := edDbl acc
  if bit = 1 then edAdd d edB else d

/-- Double-and-add loop over scalar bits, most significant first, with the
accumulator forced through `strictNat` for bounded-stack kernel evaluation;
`edLoop bits s` equals `bits.foldl edBit s`. -/
def edLoop : List Nat → EdPoint → EdPoint
  | [], s => s
  | bit :: bits, s =>
    let u := edBit s bit
    strictNat u.x fun a =>
    strictNat u.y fun b =>
    strictNat u.z fun c =>
    strictNat u.t fun d =>
    edLoop bits ⟨a, b, c, d⟩

/-- Scalar multiplication of the edwards25519 base point, double-and-add,
most significant bit first. -/
def edMulBase (s : Nat) : EdPoint :=
  let bits := (List.range 255).reverse.map (fun t => s / 2 ^ t % 2)
  edLoop bits ⟨0, 1, 1, 0⟩

/-- Compressed encoding of an edwards25519 point: the y-coordinate in
little-endian with the sign of x in the top bit (RFC 8032). -/
def encodeEdPoint (pp : EdPoint) : List Nat :=
  let zi := finv pp.z
  let x := fmul pp.x zi
  let y := fmul pp.y zi
  leBytes 32 (y + x % 2 * 2 ^ 255)

/-- Ed25519 public key of a 32-byte seed: the SHA-512 of the seed is clamped
into the secret scalar and multiplied onto the base point (RFC 8032).  This
is what `libp2p`'s Ed25519 keypair publishes for the stored seed. -/
def ed25519SeedToPk (seed : List Nat) : List Nat :=
  encodeEdPoint (edMulBase (clampScalar (leWord ((sha512 seed).take 32))))

/-- Byte-level clamping of an X25519 secret key, as `src/crypto/keys.rs`
lines 71-73 (`curve_sk_bytes[0] &= 248; [31] &= 127; [31] |= 64`). -/
def clampBytes (bs : List Nat) : List Nat :=
  bs.mapIdx fun i b =>
    if i = 0 then b &&& 248 else if i = 31 then (b &&& 127) ||| 64 else b

/-- Embedding of `keypair_to_encryption_keys` (src/crypto/keys.rs lines
53-87): hash the Ed25519 seed with SHA-512, take the first 32 bytes, clamp,
and derive the X25519 public key by `scalarmult_base`.  Returns the pair
(public key, secret key). -/
def keypair_to_encryption_keys (seed : List Nat) : List Nat × List Nat :=
  let hash := sha512 seed
  let curveSkBytes := clampBytes (hash.take 32)
  (x25519Base curveSkBytes, curveSkBytes)

/-- Embedding of `ed25519_pk_to_x25519` (src/crypto/keys.rs lines 93-126):
hash the published Ed25519 public key with SHA-512, treat the first 32 bytes
as a scalar, and take `scalarmult_base` of it. -/
def ed25519_pk_to_x25519 (ed25519PkBytes : List Nat) : Except String (List Nat) :=
  if ed25519PkBytes.length ≠ 32 then
    Except.error "Invalid Ed25519 public key: expected 32 bytes"
  else
    Except.ok (x25519Base ((sha512 ed25519PkBytes).take 32))

/-- Decidable equality for `Except`, so concrete results can be checked. -/
instance {ε α : Type _} [DecidableEq ε] [DecidableEq α] : DecidableEq (Except ε α)
  | Except.ok x, Except.ok y =>
    if h : x = y then isTrue (congrArg Except.ok h)
    else isFalse (fun hh => h (Except.ok.inj hh))
  | Except.error x, Except.error y =>
    if h : x = y then isTrue (congrArg Except.error h)
    else isFalse (fun hh => h (Except.error.inj hh))
  | Except.ok _, Except.error _ => isFalse (fun hh => Except.noConfusion hh)
  | Except.error _, Except.ok _ => isFalse (fun hh => Except.noConfusion hh)

/-- A concrete Ed25519 seed, the bytes 0 to 31. -/
def seedC1 : List Nat := List.range 32

/-- Addition of 32-bit words with wrap-around. -/
def add32 (a b : Nat) : Nat := (a + b) % 4294967296

/-- Left rotation of a 32-bit word. -/
def rotl32 (x n : Nat) : Nat := ((x <<< n) ||| (x >>> (32 - n))) % 4294967296

/-- The Salsa20 quarter-round (Bernstein's specification). -/
def salsaQR (a b c d : Nat) : Nat × Nat × Nat × Nat :=
  let b := b ^^^ rotl32 (add32 a d) 7
  let c := c ^^^ rotl32 (add32 b a) 9
  let d := d ^^^ rotl32 (add32 c b) 13
  let a := a ^^^ rotl32 (add32 d c) 18
  (a, b, c, d)

/-- A Salsa20 state of sixteen 32-bit words. -/
structure SalsaState where
  w0 : Nat
  w1 : Nat
  w2 : Nat
  w3 : Nat
  w4 : Nat
  w5 : Nat
  w6 : Nat
  w7 : Nat
  w8 : Nat
  w9 : Nat
  w10 : Nat
  w11 : Nat
  w12 : Nat
  w13 : Nat
  w14 : Nat
  w15 : Nat

/-- One Salsa20 double round: a column round followed by a row round. -/
def salsaDoubleRound (s : SalsaState) : SalsaState :=
  let (a0, a4, a8, a12) := salsaQR s.w0 s.w4 s.w8 s.w12
  let (a5, a9, a13, a1) := salsaQR s.w5 s.w9 s.w13 s.w1
  let (a10, a14, a2, a6) := salsaQR s.w10 s.w14 s.w2 s.w6
  let (a15, a3, a7, a11) := salsaQR s.w15 s.w3 s.w7 s.w11
  let (b0, b1, b2, b3) := salsaQR a0 a1 a2 a3
  let (b5, b6, b7, b4) := salsaQR a5 a6 a7 a4
  let (b10, b11, b8, b9) := salsaQR a10 a11 a8 a9
  let (b15, b12, b13, b14) := salsaQR a15 a12 a13 a14
  ⟨b0, b1, b2, b3, b4, b5, b6, b7, b8, b9, b10, b11, b12, b13, b14, b15⟩

/-- Twenty Salsa20 rounds (ten double rounds). -/
def salsaRounds (s : SalsaState) : SalsaState :=
  (List.range 10).foldl (fun st _ => salsaDoubleRound st) s

/-- Little-endian 32-bit word at word index `i` of a byte list. -/
def word32At (l : List Nat) (i : Nat) : Nat := leWord ((l.drop (4 * i)).take 4)

/-- Initial Salsa20 state from a 32-byte key and a 16-byte input block, with
the "expand 32-byte k" diagonal constants. -/
def salsaInit (key inp : List Nat) : SalsaState :=
  ⟨0x61707865, word32At key 0, word32At key 1, word32At key 2,
   word32At key 3, 0x3320646e, word32At inp 0, word32At inp 1,
   word32At inp 2, word32At inp 3, 0x79622d32, word32At key 4,
   word32At key 5, word32At key 6, word32At key 7, 0x6b206574⟩

/-- The 64-byte Salsa20 output block: twenty rounds plus the feed-forward
addition of the initial state, serialized little-endian. -/
def salsa20Block (key inp : List Nat) : List Nat :=
  let s0 := salsaInit key inp
  let z := salsaRounds s0
  leBytes 4 (add32 z.w0 s0.w0) ++ leBytes 4 (add32 z.w1 s0.w1) ++
  leBytes 4 (add32 z.w2 s0.w2) ++ leBytes 4 (add32 z.w3 s0.w3) ++
  leBytes 4 (add32 z.w4 s0.w4) ++ leBytes 4 (add32 z.w5 s0.w5) ++
  leBytes 4 (add32 z.w6 s0.w6) ++ leBytes 4 (add32 z.w7 s0.w7) ++
  leBytes 4 (add32 z.w8 s0.w8) ++ leBytes 4 (add32 z.w9 s0.w9) ++
  leBytes 4 (add32 z.w10 s0.w10) ++ leBytes 4 (add32 z.w11 s0.w11) ++
  leBytes 4 (add32 z.w12 s0.w12) ++ leBytes 4 (add32 z.w13 s0.w13) ++
  leBytes 4 (add32 z.w14 s0.w14) ++ leBytes 4 (add32 z.w15 s0.w15)

/-- HSalsa20: twenty rounds without feed-forward, taking words 0, 5, 10, 15,
6, 7, 8, 9 as the derived 32-byte subkey. -/
def hsalsa20 (key inp16 : List Nat) : List Nat :=
  let z := salsaRounds (salsaInit key inp16)
  leBytes 4 z.w0 ++ leBytes 4 z.w5 ++ leBytes 4 z.w10 ++ leBytes 4 z.w15 ++
  leBytes 4 z.w6 ++ leBytes 4 z.w7 ++ leBytes 4 z.w8 ++ leBytes 4 z.w9

/-- The first `n` bytes of the XSalsa20 keystream for a 32-byte key and a
24-byte nonce: HSalsa20 derives a subkey from the first 16 nonce bytes, then
Salsa20 blocks run over the last 8 nonce bytes and a little-endian counter. -/
def xsalsaStream (n : Nat) (key nonce : List Nat) : List Nat :=
  let sub := hsalsa20 key (nonce.take 16)
  (((List.range ((n + 63) / 64)).map
    (fun i => salsa20Block sub ((nonce.drop 16).take 8 ++ leBytes 8 i))).flatten).take n

/-- Poly1305 one-time authenticator of a message under a 32-byte key: the
clamped `r` half drives a polynomial over `2 ^ 130 - 5`, the `s` half is
added at the end (RFC 8439 semantics). -/
def poly1305 (msg key : List Nat) : List Nat :=
  let r := leWord (key.take 16) &&& 0x0ffffffc0ffffffc0ffffffc0fffffff
  let s := leWord ((key.drop 16).take 16)
  let acc := (chunks 16 msg).foldl
    (fun a blk => (a + leWord blk + 2 ^ (8 * blk.length)) * r % (2 ^ 130 - 5)) 0
  leBytes 16 ((acc + s) % 2 ^ 128)

/-- NaCl `crypto_secretbox` (XSalsa20-Poly1305): the first 32 keystream
bytes key Poly1305, the rest encrypts the message; output is the 16-byte tag
followed by the ciphertext. -/
def secretboxSeal (m nonce key : List Nat) : List Nat :=
  let stream := xsalsaStream (32 + m.length) key nonce
  let c := List.zipWith (fun a b => a ^^^ b) m (stream.drop 32)
  poly1305 c (stream.take 32) ++ c

/-- NaCl `crypto_secretbox_open`: recompute the keystream, verify the tag
over the ciphertext, and decrypt by the same keystream. -/
def secretboxOpen (c nonce key : List Nat) : Option (List Nat) :=
  if c.length < 16 then none
  else
    let tag := c.take 16
    let ct := c.drop 16
    let stream := xsalsaStream (32 + ct.length) key nonce
    if poly1305 ct (stream.take 32) = tag then
      some (List.zipWith (fun a b => a ^^^ b) ct (stream.drop 32))
    else none

/-- Embedding of `encrypt_for_group` (src/crypto/encrypt.rs lines 37-48):
reject keys that are not 32 bytes, encrypt with secretbox under a fresh
24-byte nonce (made an explicit argument here), and prepend the nonce. -/
def encrypt_for_group (plaintext groupKey nonce : List Nat) : Except String (List Nat) :=
  if groupKey.length ≠ 32 then Except.error "Invalid group key: must be 32 bytes"
  else Except.ok (nonce ++ secretboxSeal plaintext nonce groupKey)

/-- Embedding of `decrypt_from_group` (src/crypto/encrypt.rs lines 53-68):
reject inputs shorter than the 24-byte nonce, reject keys that are not 32
bytes, read the first 24 bytes as the nonce, and open the secretbox. -/
def decrypt_from_group (ciphertext groupKey : List Nat) : Except String (List Nat) :=
  if ciphertext.length < 24 then Except.error "Ciphertext too short: missing nonce"
  else if groupKey.length ≠ 32 then Except.error "Invalid group key: must be 32 bytes"
  else
    match secretboxOpen (ciphertext.drop 24) (ciphertext.take 24) groupKey with
    | some m => Except.ok m
    | none => Except.error "Group decryption failed: invalid ciphertext or wrong key"

/-- Receipt kind, as `ReceiptType` in src/message/types.rs. -/
inductive ReceiptType where
  | Delivered
  | Read
deriving DecidableEq, Repr

/-- Message status, as `MessageStatus` in src/message/types.rs. -/
inductive MessageStatus where
  | Pending
  | Sent
  | Delivered
  | Read
  | Failed (reason : String)
deriving DecidableEq, Repr

/-- Priority of a message status, as `status_priority` in
src/message/sync.rs lines 83-91 (higher is more final). -/
def status_priority : MessageStatus → Nat
  | MessageStatus.Pending => 0
  | MessageStatus.Sent => 1
  | MessageStatus.Delivered => 2
  | MessageStatus.Read => 3
  | MessageStatus.Failed _ => 4

/-- A uuid modelled as its sixteen raw bytes. -/
abbrev UuidT : Type := List Nat

/-- Lowercase hexadecimal digit character for a value below sixteen. -/
def hexDigitChar (d : Nat) : Nat := if d < 10 then 48 + d else 87 + d

/-- Two lowercase hexadecimal characters of one byte. -/
def byteHex (b : Nat) : List Nat := [hexDigitChar (b / 16), hexDigitChar (b % 16)]

/-- Lowercase hexadecimal characters of a byte list. -/
def hexChars (l : List Nat) : List Nat := l.flatMap byteHex

/-- The 36-character hyphenated rendering of a 16-byte uuid (groups of 4, 2,
2, 2 and 6 bytes), as the `uuid` crate's `Display`. -/
def uuidHyphenBytes (u : UuidT) : List Nat :=
  hexChars (u.take 4) ++ [45] ++ hexChars ((u.drop 4).take 2) ++ [45] ++
  hexChars ((u.drop 6).take 2) ++ [45] ++ hexChars ((u.drop 8).take 2) ++ [45] ++
  hexChars (u.drop 10)

/-- Value of one hexadecimal character, accepting both cases. -/
def hexVal (c : Nat) : Option Nat :=
  if 48 ≤ c ∧ c ≤ 57 then some (c - 48)
  else if 97 ≤ c ∧ c ≤ 102 then some (c - 87)
  else if 65 ≤ c ∧ c ≤ 70 then some (c - 55)
  else none

/-- Parse `n` bytes (2·n hexadecimal characters) off a character list,
returning the bytes and the remaining characters. -/
def parseHexGroup : Nat → List Nat → Option (List Nat × List Nat)
  | 0, s => some ([], s)
  | n + 1, h :: lo :: rest =>
    match hexVal h, hexVal lo, parseHexGroup n rest with
    | some hv, some lv, some (bs, rst) => some ((hv * 16 + lv) :: bs, rst)
    | _, _, _ => none
  | _ + 1, _ => none

/-- Consume one hyphen character. -/
def expectHyphen : List Nat → Option (List Nat)
  | 45 :: rest => some rest
  | _ => none

/-- Parse of a 36-character hyphenated uuid, as the `uuid` crate's
`Uuid::parse_str` behaves on inputs of length 36: four hyphens at fixed
positions around groups of 8, 4, 4, 4 and 12 hexadecimal characters. -/
def uuidParse36 (s : List Nat) : Option UuidT := do
  let (g1, r1) ← parseHexGroup 4 s
  let r1 ← expectHyphen r1
  let (g2, r2) ← parseHexGroup 2 r1
  let r2 ← expectHyphen r2
  let (g3, r3) ← parseHexGroup 2 r2
  let r3 ← expectHyphen r3
  let (g4, r4) ← parseHexGroup 2 r3
  let r4 ← expectHyphen r4
  let (g5, r5) ← parseHexGroup 6 r4
  if r5 = [] then some (g1 ++ g2 ++ g3 ++ g4 ++ g5) else none

/-- The five bytes of the receipt tag `RCPT:`. -/
def rcptTag : List Nat := [82, 67, 80, 84, 58]

/-- Embedding of `parse_receipt` (src/cli/commands.rs lines 34-54): require
the `RCPT:` tag, a payload of at least 38 bytes, a `D` or `R` discriminant,
a colon, and a valid uuid in the next 36 bytes. -/
def parse_receipt (data : List Nat) : Option (UuidT × ReceiptType) :=
  if rcptTag.isPrefixOf data then
    let payload := data.drop 5
    if payload.length < 38 then none
    else
      let rt? : Option ReceiptType :=
        if payload.getD 0 0 = 68 then some ReceiptType.Delivered
        else if payload.getD 0 0 = 82 then some ReceiptType.Read
        else none
      match rt? with
      | none => none
      | some rt =>
        if payload.getD 1 0 ≠ 58 then none
        else
          match uuidParse36 ((payload.drop 2).take 36) with
          | some u => some (u, rt)
          | none => none
  else none

/-- Embedding of `create_receipt` (src/cli/commands.rs lines 57-63): the
bytes of `RCPT:`, the `D` or `R` discriminant, a colon, and the hyphenated
uuid. -/
def create_receipt (messageId : UuidT) (rt : ReceiptType) : List Nat :=
  let typeChar : Nat :=
    match rt with
    | ReceiptType.Delivered => 68
    | ReceiptType.Read => 82
  rcptTag ++ [typeChar, 58] ++ uuidHyphenBytes messageId

/-- Embedding of `update_message_status` (src/storage/db.rs lines 151-159).
The messages table is modelled as a list of (id, status) rows; the SQL
`UPDATE messages SET status = ?1 WHERE id = ?2` rewrites the status of every
row whose id matches, and the returned boolean is `rows > 0`. -/
def update_message_status (tbl : List (UuidT × MessageStatus)) (i : UuidT)
    (s : MessageStatus) : List (UuidT × MessageStatus) × Bool :=
  (tbl.map (fun r => if r.1 = i then (r.1, s) else r), tbl.any (fun r => r.1 = i))

/-- Stored status of a message id: the first matching row's status. -/
def lookupStatus (tbl : List (UuidT × MessageStatus)) (i : UuidT) : Option MessageStatus :=
  (tbl.find? (fun r => r.1 = i)).map (fun r => r.2)

/-- A row of the `pending_messages` table (src/storage/schema): message id,
destination peer, encrypted payload, enqueue time, attempt counter. -/
structure PendingRow where
  id : UuidT
  toPeer : Nat
  data : List Nat
  createdAt : Nat
  attempts : Nat
deriving DecidableEq, Repr

/-- Enqueue-time ordering of pending rows. -/
def rowLe (a b : PendingRow) : Prop := a.createdAt ≤ b.createdAt

instance : DecidableRel rowLe := fun a b => Nat.decLe a.createdAt b.createdAt

instance : IsTotal PendingRow rowLe := ⟨fun a b => Nat.le_total a.createdAt b.createdAt⟩

instance : IsTrans PendingRow rowLe := ⟨fun _ _ _ => Nat.le_trans⟩

/-- Embedding of `queue_pending_message` (src/storage/db.rs lines 454-466):
SQLite `INSERT OR REPLACE` keyed on the id deletes any conflicting row and
appends the fresh row (attempts reset to 0) with a new rowid. -/
def queue_pending_message (tbl : List PendingRow) (i : UuidT) (toPeer : Nat)
    (encryptedData : List Nat) (now : Nat) : List PendingRow :=
  tbl.filter (fun r => r.id ≠ i) ++ [⟨i, toPeer, encryptedData, now, 0⟩]

/-- Embedding of `get_pending_for_peer` (src/storage/db.rs lines 468-489):
`SELECT id, encrypted_data FROM pending_messages WHERE to_peer = ?1 ORDER BY
created_at`, with the SQLite sort modelled as a stable insertion sort over
the rows in rowid (insertion) order. -/
def get_pending_for_peer (tbl : List PendingRow) (p : Nat) : List (UuidT × List Nat) :=
  (List.insertionSort rowLe (tbl.filter (fun r => r.toPeer = p))).map
    (fun r => (r.id, r.data))

/-- Embedding of `remove_pending_message` (src/storage/db.rs lines 492-498):
delete every row with the given id. -/
def remove_pending_message (tbl : List PendingRow) (i : UuidT) : List PendingRow :=
  tbl.filter (fun r => r.id ≠ i)

/-- The flush loop of `run_tui_with_network` (src/cli/commands.rs lines
392-399): read the pending rows for the connected peer in order, hand each
payload to the transport, and remove it from the queue.  Returns the
payloads in the order handed over, with the queue left behind. -/
def flushPending (tbl : List PendingRow) (p : Nat) : List (List Nat) × List PendingRow :=
  let pending := get_pending_for_peer tbl p
  (pending.map (fun e => e.2), pending.foldl (fun t e => remove_pending_message t e.1) tbl)

/-- A submit for claim C3: the fresh message id, the encrypted payload and
the enqueue time recorded by `queue_pending_message`. -/
structure Submit where
  id : UuidT
  payload : List Nat
  time : Nat
deriving DecidableEq, Repr

/-- Queue a sequence of submits for one peer against the pending table. -/
def submitAll (tbl : List PendingRow) (p : Nat) (subs : List Submit) : List PendingRow :=
  subs.foldl (fun t s => queue_pending_message t s.id p s.payload s.time) tbl

/-- Trust level of a contact, as `TrustLevel` in src/identity. -/
inductive TrustLevel where
  | Unknown
  | Verified
  | Trusted
  | Blocked
deriving DecidableEq, Repr

/-- A contact record, as `Contact` in src/identity/contacts.rs (the
`last_seen` timestamp is irrelevant to the claims and omitted). -/
structure Contact where
  peerId : Nat
  aliasName : String
  publicKey : List Nat
  trustLevel : TrustLevel
deriving DecidableEq, Repr

/-- A message row as inserted by `insert_message`, holding the fields
`handle_send` and the inbound handler populate. -/
structure MessageRec where
  id : UuidT
  fromPeer : Nat
  toPeer : Nat
  body : List Nat
  status : MessageStatus
deriving DecidableEq, Repr

/-- Database state visible to the command layer. -/
structure DbState where
  contacts : List Contact
  messages : List MessageRec
  pending : List PendingRow
deriving DecidableEq, Repr

/-- Embedding of `get_contact_by_alias` (src/storage/db.rs lines 225-233). -/
def get_contact_by_alias (cs : List Contact) (a : String) : Option Contact :=
  cs.find? (fun c => c.aliasName = a)

/-- Embedding of `handle_send` (src/cli/commands.rs lines 132-181), the
submit path: look the contact up by alias (error if absent), insert the
message with status Pending, encrypt against the contact's stored public key
(falling back to the plaintext bytes when the key is empty or either
conversion or encryption fails), queue the encrypted payload persistently,
and hand it to the transport.  The keypair loading and node setup are
environment plumbing; the Ed25519-to-X25519 conversion and the sealed-box
encryption enter as function arguments so the data path stays explicit.
Returns the updated database and the transported (peer, payload) pair. -/
def handle_send (edToX : List Nat → Except String (List Nat))
    (encryptMessage : List Nat → List Nat → Except String (List Nat))
    (db : DbState) (ourPeer : Nat) (a : String) (text : List Nat)
    (msgId : UuidT) (now : Nat) : Except String (DbState × (Nat × List Nat)) :=
  match get_contact_by_alias db.contacts a with
  | none => Except.error "Contact not found"
  | some contact =>
    let msg : MessageRec := ⟨msgId, ourPeer, contact.peerId, text, MessageStatus.Pending⟩
    let encryptedData :=
      if contact.publicKey ≠ [] then
        match edToX contact.publicKey with
        | Except.ok recipientPk =>
          match encryptMessage text recipientPk with
          | Except.ok e => e
          | Except.error _ => text
        | Except.error _ => text
      else text
    let db2 : DbState :=
      { db with
        messages := db.messages ++ [msg],
        pending := queue_pending_message db.pending msgId contact.peerId encryptedData now }
    Except.ok (db2, (contact.peerId, encryptedData))

/-- Set the status of the message rows matching an id (the inbound receipt
path's use of `update_message_status`). -/
def setMessageStatus (msgs : List MessageRec) (i : UuidT) (s : MessageStatus) :
    List MessageRec :=
  msgs.map (fun m => if m.id = i then { m with status := s } else m)

/-- The inbound decrypt fallback (src/cli/commands.rs lines 406-409): try
sealed-box decryption with our keys, and on failure keep the raw bytes. -/
def decryptOrRaw (decryptMessage : List Nat → Except String (List Nat))
    (data : List Nat) : List Nat :=
  match decryptMessage data with
  | Except.ok plaintext => plaintext
  | Except.error _ => data

/-- Embedding of the `MessageReceived` arm of `run_tui_with_network`
(src/cli/commands.rs lines 404-447): try sealed-box decryption (falling back
to the raw bytes), apply a parsed receipt to the stored message status, and
otherwise insert the inbound message with status Pending and answer with a
delivery receipt to the sender.  Returns the updated database and the
transported replies. -/
def handleInbound (decryptMessage : List Nat → Except String (List Nat))
    (db : DbState) (ourPeer fromPeer : Nat) (data : List Nat) (newId : UuidT) :
    DbState × List (Nat × List Nat) :=
  let decrypted := decryptOrRaw decryptMessage data
  match parse_receipt decrypted with
  | some (msgId, rt) =>
    let newStatus :=
      match rt with
      | ReceiptType.Delivered => MessageStatus.Delivered
      | ReceiptType.Read => MessageStatus.Read
    ({ db with messages := setMessageStatus db.messages msgId newStatus }, [])
  | none =>
    let msg : MessageRec := ⟨newId, fromPeer, ourPeer, decrypted, MessageStatus.Pending⟩
    ({ db with messages := db.messages ++ [msg] },
     [(fromPeer, create_receipt newId ReceiptType.Delivered)])

/-- A message as handled by `merge_messages` in src/message/sync.rs; the
fields relevant to merging are the id, timestamp and status (`text` stands
for the remaining payload distinguishing the two copies). -/
structure SyncMsg where
  id : UuidT
  timestamp : Nat
  status : MessageStatus
  text : String
deriving DecidableEq, Repr

/-- Timestamp ordering of sync messages. -/
def tsLe (a b : SyncMsg) : Prop := a.timestamp ≤ b.timestamp

instance : DecidableRel tsLe := fun a b => Nat.decLe a.timestamp b.timestamp

instance : IsTotal SyncMsg tsLe := ⟨fun a b => Nat.le_total a.timestamp b.timestamp⟩

instance : IsTrans SyncMsg tsLe := ⟨fun _ _ _ => Nat.le_trans⟩

/-- Insert into the by-id map (`HashMap::insert`), modelled as an
association list that replaces in place or appends. -/
def upsertById (m : List (UuidT × SyncMsg)) (msg : SyncMsg) : List (UuidT × SyncMsg) :=
  if m.any (fun e => e.1 = msg.id) then
    m.map (fun e => if e.1 = msg.id then (msg.id, msg) else e)
  else m ++ [(msg.id, msg)]

/-- Lookup in the by-id map (`HashMap::get`). -/
def lookupById (m : List (UuidT × SyncMsg)) (i : UuidT) : Option SyncMsg :=
  (m.find? (fun e => e.1 = i)).map (fun e => e.2)

/-- One remote message folded into the map, as the merge loop of
`merge_messages` (src/message/sync.rs lines 62-74): a remote copy replaces
an existing one only when its status priority is strictly greater. -/
def mergeRemoteStep (m : List (UuidT × SyncMsg)) (r : SyncMsg) : List (UuidT × SyncMsg) :=
  match lookupById m r.id with
  | some existing =>
    if status_priority existing.status < status_priority r.status then upsertById m r
    else m
  | none => upsertById m r

/-- Embedding of `merge_messages` (src/message/sync.rs lines 53-80): local
messages are inserted first, remote messages are merged with the
status-priority rule, and the values are sorted by timestamp.  The iteration
order of the Rust `HashMap` is arbitrary; it is modelled as insertion order,
which the final stable sort makes irrelevant up to ties. -/
def merge_messages (localMsgs remoteMsgs : List SyncMsg) : List SyncMsg :=
  let m1 := localMsgs.foldl upsertById []
  let m2 := remoteMsgs.foldl mergeRemoteStep m1
  List.insertionSort tsLe (m2.map (fun e => e.2))

/-- Message recipient, as `Recipient` in src/message/types.rs. -/
inductive Recipient where
  | Direct (peer : Nat)
  | Group (gid : UuidT)
deriving DecidableEq, Repr

/-- A message as held by `MessageQueue` (src/message/types.rs `Message`). -/
structure QMessage where
  id : UuidT
  fromPeer : Nat
  recipient : Recipient
  text : String
  status : MessageStatus
deriving DecidableEq, Repr

/-- The in-memory `MessageQueue.pending` map from peers to their queues,
modelled as an association list. -/
abbrev MessageQueueT : Type := List (Nat × List QMessage)

/-- Queue stored for a peer (`HashMap::get`, empty when absent). -/
def mqGetQueue (q : MessageQueueT) (p : Nat) : List QMessage :=
  match List.find? (fun e => e.1 = p) q with
  | some e => e.2
  | none => []

/-- Embedding of `MessageQueue::enqueue` (src/message/queue.rs lines 38-52):
a direct message is keyed by its recipient peer, a group message is stored
under the sender (`message.from`); the message is pushed at the back of that
peer's queue. -/
def mqEnqueue (q : MessageQueueT) (message : QMessage) : MessageQueueT :=
  let peerId :=
    match message.recipient with
    | Recipient.Direct peer => peer
    | Recipient.Group _ => message.fromPeer
  if List.any q (fun e => e.1 = peerId) then
    List.map (fun e => if e.1 = peerId then (e.1, e.2 ++ [message]) else e) q
  else q ++ [(peerId, [message])]

/-- Embedding of `MessageQueue::pending_count` (src/message/queue.rs lines
70-72). -/
def mqPendingCount (q : MessageQueueT) (p : Nat) : Nat := (mqGetQueue q p).length

/-- Embedding of `MessageQueue::dequeue` (src/message/queue.rs lines 55-59):
pop the front of the peer's queue, if any. -/
def mqDequeue (q : MessageQueueT) (p : Nat) : Option QMessage × MessageQueueT :=
  match mqGetQueue q p with
  | [] => (none, q)
  | m :: rest => (some m, List.map (fun e => if e.1 = p then (e.1, rest) else e) q)

/-- Embedding of `save_keypair` (src/identity/keypair.rs lines 35-64): the
keypair is represented by its canonical encoding bytes; a salt is drawn, the
passphrase is fed with it through the password KDF (libsodium `pwhash`,
which accepts any passphrase including the empty one — passed in here as a
function), and the file is `salt (32) || nonce (24) || secretbox
ciphertext`. -/
def save_keypair (kdf : String → List Nat → List Nat) (keypairBytes : List Nat)
    (passphrase : String) (salt nonce : List Nat) : List Nat :=
  salt ++ nonce ++ secretboxSeal keypairBytes nonce (kdf passphrase salt)

/-- Embedding of `load_keypair` (src/identity/keypair.rs lines 67-89):
reject files shorter than 57 bytes, split salt, nonce and ciphertext,
re-derive the key from the passphrase, and open the secretbox.  The decoded
keypair is its canonical encoding bytes, so the derived peer id is a
function of the returned value. -/
def load_keypair (kdf : String → List Nat → List Nat) (data : List Nat)
    (passphrase : String) : Except String (List Nat) :=
  if data.length < 57 then Except.error "Invalid keypair file: too short"
  else
    let salt := data.take 32
    let nonce := (data.drop 32).take 24
    let ciphertext := data.drop 56
    match secretboxOpen ciphertext nonce (kdf passphrase salt) with
    | some plaintext => Except.ok plaintext
    | none => Except.error "Failed to decrypt keypair: wrong passphrase?"

/-- Embedding of `derive_database_key` (src/storage/encryption.rs lines
19-59): an empty passphrase is rejected before any salt handling; otherwise
the Argon2 hash of the passphrase and salt (the external KDF, passed in as a
function) becomes the database key.  The salt-file bookkeeping and the
SQLCipher hex wrapping do not affect the claims and are omitted. -/
def derive_database_key (argon2 : String → List Nat → List Nat)
    (passphrase : String) (salt : List Nat) : Except String (List Nat) :=
  if passphrase = "" then
    Except.error "Passphrase cannot be empty. Database encryption is required."
  else Except.ok (argon2 passphrase salt)

/-- Unfolding equation of the strictness helper. -/
theorem strictNat_eq {α : Sort _} (n : Nat) (f : Nat → α) : strictNat n f = f n := by
  cases n <;> rfl

/-- Applying the same one-time pad twice restores the message. -/
theorem zipWith_xor_cancel : ∀ (a b : List Nat), a.length ≤ b.length →
    List.zipWith (fun x y => x ^^^ y) (List.zipWith (fun x y => x ^^^ y) a b) b = a
  | [], _, _ => by simp
  | _ :: _, [], h => by simp at h
  | x :: xs, y :: ys, h => by
    simp only [List.zipWith]
    rw [zipWith_xor_cancel xs ys (by simpa using h), Nat.xor_cancel_right]

/-- Length of a little-endian serialization. -/
theorem leBytes_length (n x : Nat) : (leBytes n x).length = n := by
  simp [leBytes]

/-- A Salsa20 output block has 64 bytes. -/
theorem salsa20Block_length (key inp : List Nat) : (salsa20Block key inp).length = 64 := by
  simp [salsa20Block, leBytes_length]

/-- The XSalsa20 keystream has the requested length. -/
theorem xsalsaStream_length (n : Nat) (key nonce : List Nat) :
    (xsalsaStream n key nonce).length = n := by
  unfold xsalsaStream
  rw [List.length_take]
  apply Nat.min_eq_left
  have hflat : ∀ (k : Nat) (sub tail : List Nat),
      (((List.range k).map (fun i => salsa20Block sub (tail ++ leBytes 8 i))).flatten).length
        = k * 64 := by
    intro k sub tail
    induction k with
    | zero => simp
    | succ m ih =>
      rw [List.range_succ]
      simp only [List.map_append, List.flatten_append, List.length_append, ih]
      simp [salsa20Block_length, Nat.succ_mul]
  rw [hflat]
  omega

/-- A Poly1305 tag has 16 bytes. -/
theorem poly1305_length (msg key : List Nat) : (poly1305 msg key).length = 16 := by
  simp [poly1305, leBytes_length]

/-- A secretbox output is the 16-byte tag plus the message length. -/
theorem secretboxSeal_length (m nonce key : List Nat) :
    (secretboxSeal m nonce key).length = 16 + m.length := by
  unfold secretboxSeal
  rw [List.length_append, poly1305_length, List.length_zipWith, List.length_drop,
    xsalsaStream_length]
  omega

/-- Opening a secretbox that was just sealed returns the message, for every
message, nonce and key. -/
theorem secretboxOpen_seal (m nonce key : List Nat) :
    secretboxOpen (secretboxSeal m nonce key) nonce key = some m := by
  have hlen := secretboxSeal_length m nonce key
  have hc : (List.zipWith (fun a b => a ^^^ b) m
      ((xsalsaStream (32 + m.length) key nonce).drop 32)).length = m.length := by
    rw [List.length_zipWith, List.length_drop, xsalsaStream_length]
    simp
  simp only [secretboxOpen, secretboxSeal, hc]
  rw [if_neg (by rw [List.length_append, poly1305_length]; omega)]
  rw [List.take_left' (poly1305_length _ _), List.drop_left' (poly1305_length _ _)]
  rw [hc, if_pos rfl]
  rw [zipWith_xor_cancel m _ (by rw [List.length_drop, xsalsaStream_length]; omega)]

/-- C5: for every plaintext, every 32-byte group key and every 24-byte
nonce, `encrypt_for_group` succeeds and prepends the nonce to the secretbox
output, and `decrypt_from_group` of that output under the same key restores
the plaintext (the empty plaintext included, as the witness instantiates). -/
theorem C5_group_roundtrip (m key nonce : List Nat)
    (hk : key.length = 32) (hn : nonce.length = 24) :
    encrypt_for_group m key nonce = Except.ok (nonce ++ secretboxSeal m nonce key) ∧
    decrypt_from_group (nonce ++ secretboxSeal m nonce key) key = Except.ok m := by
  constructor
  · unfold encrypt_for_group
    rw [if_neg (by omega)]
  · unfold decrypt_from_group
    have hlen := secretboxSeal_length m nonce key
    rw [if_neg (by rw [List.length_append, hn]; omega), if_neg (by omega),
      List.take_left' hn, List.drop_left' hn, secretboxOpen_seal]

/-- Witness for C5 at the empty plaintext with concrete key and nonce. -/
theorem C5_group_roundtrip_witness :
    encrypt_for_group [] (List.range 32) (List.range 24) =
      Except.ok (List.range 24 ++ secretboxSeal [] (List.range 24) (List.range 32)) ∧
    decrypt_from_group (List.range 24 ++ secretboxSeal [] (List.range 24) (List.range 32))
      (List.range 32) = Except.ok [] :=
  C5_group_roundtrip [] (List.range 32) (List.range 24) (by decide) (by decide)

/-- C9: the identity-file vault accepts the empty passphrase — `save_keypair`
writes `salt || nonce || secretbox` and `load_keypair` with the same empty
passphrase recovers the identical keypair bytes (hence the same PeerId,
which is a function of them) — while the encrypted store's
`derive_database_key` rejects the empty passphrase at open time.  The KDFs
are external collaborators, passed in as functions. -/
theorem C9_empty_passphrase_vault (kdf argon2 : String → List Nat → List Nat)
    (kp salt nonce salt2 : List Nat) (hs : salt.length = 32) (hn : nonce.length = 24) :
    load_keypair kdf (save_keypair kdf kp "" salt nonce) "" = Except.ok kp ∧
    derive_database_key argon2 "" salt2 =
      Except.error "Passphrase cannot be empty. Database encryption is required." := by
  constructor
  · simp only [save_keypair, load_keypair]
    have hlen := secretboxSeal_length kp nonce (kdf "" salt)
    rw [if_neg (by simp only [List.length_append, hs, hn]; omega)]
    rw [List.append_assoc]
    rw [List.take_left' hs, List.drop_left' hs, List.take_left' hn]
    have h56 : List.drop 56 (salt ++ (nonce ++ secretboxSeal kp nonce (kdf "" salt)))
        = secretboxSeal kp nonce (kdf "" salt) := by
      have : (56 : Nat) = salt.length + 24 := by omega
      rw [this, List.drop_append, List.drop_left' hn]
    rw [h56, secretboxOpen_seal]
  · unfold derive_database_key
    rw [if_pos rfl]

/-- Witness for C9 at concrete keypair bytes, salt and nonce. -/
theorem C9_empty_passphrase_vault_witness :
    load_keypair (fun _ _ => List.replicate 32 7)
      (save_keypair (fun _ _ => List.replicate 32 7) [1, 2, 3] "" (List.range 32)
        (List.range 24)) "" = Except.ok [1, 2, 3] ∧
    derive_database_key (fun _ _ => List.replicate 32 7) "" [] =
      Except.error "Passphrase cannot be empty. Database encryption is required." :=
  C9_empty_passphrase_vault (fun _ _ => List.replicate 32 7) (fun _ _ => List.replicate 32 7)
    [1, 2, 3] (List.range 32) (List.range 24) [] (by decide) (by decide)

/-- Parsing the hexadecimal digit character of a value below sixteen
restores the value. -/
theorem hexVal_hexDigitChar (d : Nat) (h : d < 16) : hexVal (hexDigitChar d) = some d := by
  rcases Nat.lt_or_ge d 10 with h10 | h10
  · have hch : hexDigitChar d = 48 + d := by simp [hexDigitChar, h10]
    rw [hch]
    unfold hexVal
    rw [if_pos (by omega)]
    congr 1
    omega
  · have hch : hexDigitChar d = 87 + d := by
      unfold hexDigitChar
      rw [if_neg (by omega)]
    rw [hch]
    unfold hexVal
    rw [if_neg (by omega), if_pos (by omega)]
    congr 1
    omega

/-- Hexadecimal characters of a byte list have twice its length. -/
theorem hexChars_length : ∀ l : List Nat, (hexChars l).length = 2 * l.length
  | [] => rfl
  | b :: rest => by
    simp only [hexChars, List.flatMap_cons, List.length_append]
    have := hexChars_length rest
    simp only [hexChars] at this
    simp [byteHex, this]
    omega

/-- Parsing the hexadecimal rendering of a byte list consumes exactly those
characters and restores the bytes. -/
theorem parseHexGroup_hexChars : ∀ (l rest : List Nat), (∀ b ∈ l, b < 256) →
    parseHexGroup l.length (hexChars l ++ rest) = some (l, rest)
  | [], rest, _ => rfl
  | b :: l, rest, hb => by
    have hbb : b < 256 := hb b (List.mem_cons_self b l)
    have ih := parseHexGroup_hexChars l rest (fun x hx => hb x (List.mem_cons_of_mem b hx))
    show parseHexGroup (l.length + 1)
      (hexDigitChar (b / 16) :: hexDigitChar (b % 16) :: (hexChars l ++ rest)) = _
    rw [show parseHexGroup (l.length + 1)
        (hexDigitChar (b / 16) :: hexDigitChar (b % 16) :: (hexChars l ++ rest)) =
      (match hexVal (hexDigitChar (b / 16)), hexVal (hexDigitChar (b % 16)),
        parseHexGroup l.length (hexChars l ++ rest) with
      | some hv, some lv, some (bs, rst) => some ((hv * 16 + lv) :: bs, rst)
      | _, _, _ => none) from rfl]
    rw [hexVal_hexDigitChar _ (by omega), hexVal_hexDigitChar _ (by omega), ih]
    show some ((b / 16 * 16 + b % 16) :: l, rest) = _
    rw [show b / 16 * 16 + b % 16 = b by omega]

/-- Specialization of `parseHexGroup_hexChars` to a stated group size. -/
theorem parseHexGroup_of_length (n : Nat) (l rest : List Nat) (hl : l.length = n)
    (hb : ∀ b ∈ l, b < 256) : parseHexGroup n (hexChars l ++ rest) = some (l, rest) :=
  hl ▸ parseHexGroup_hexChars l rest hb

/-- Consuming a leading hyphen succeeds. -/
theorem expectHyphen_cons (r : List Nat) : expectHyphen (45 :: r) = some r := rfl

/-- Parsing the hyphenated rendering of a 16-byte uuid restores the uuid. -/
theorem uuidParse36_uuidHyphenBytes (u : UuidT) (h16 : u.length = 16)
    (hb : ∀ b ∈ u, b < 256) : uuidParse36 (uuidHyphenBytes u) = some u := by
  have l1 : (u.take 4).length = 4 := by simp [h16]
  have l2 : ((u.drop 4).take 2).length = 2 := by simp [h16]
  have l3 : ((u.drop 6).take 2).length = 2 := by simp [h16]
  have l4 : ((u.drop 8).take 2).length = 2 := by simp [h16]
  have l5 : (u.drop 10).length = 6 := by simp [h16]
  have b1 : ∀ b ∈ u.take 4, b < 256 := fun b m => hb b (List.take_subset _ _ m)
  have b2 : ∀ b ∈ (u.drop 4).take 2, b < 256 :=
    fun b m => hb b (List.drop_subset _ _ (List.take_subset _ _ m))
  have b3 : ∀ b ∈ (u.drop 6).take 2, b < 256 :=
    fun b m => hb b (List.drop_subset _ _ (List.take_subset _ _ m))
  have b4 : ∀ b ∈ (u.drop 8).take 2, b < 256 :=
    fun b m => hb b (List.drop_subset _ _ (List.take_subset _ _ m))
  have b5 : ∀ b ∈ u.drop 10, b < 256 := fun b m => hb b (List.drop_subset _ _ m)
  unfold uuidHyphenBytes
  simp only [List.append_assoc, List.cons_append, List.nil_append]
  unfold uuidParse36
  rw [parseHexGroup_of_length 4 _ _ l1 b1]
  simp only [Option.bind_eq_bind, Option.some_bind, expectHyphen_cons]
  rw [parseHexGroup_of_length 2 _ _ l2 b2]
  simp only [Option.some_bind, expectHyphen_cons]
  rw [parseHexGroup_of_length 2 _ _ l3 b3]
  simp only [Option.some_bind, expectHyphen_cons]
  rw [parseHexGroup_of_length 2 _ _ l4 b4]
  simp only [Option.some_bind, expectHyphen_cons]
  rw [show hexChars (u.drop 10) = hexChars (u.drop 10) ++ [] from (List.append_nil _).symm,
    parseHexGroup_of_length 6 _ _ l5 b5]
  simp only [Option.some_bind, if_pos rfl]
  have e4 : (u.drop 8).take 2 ++ u.drop 10 = u.drop 8 := by
    rw [show (10 : Nat) = 8 + 2 from rfl, ← List.drop_drop, List.take_append_drop]
  have e3 : (u.drop 6).take 2 ++ u.drop 8 = u.drop 6 := by
    rw [show (8 : Nat) = 6 + 2 from rfl, ← List.drop_drop, List.take_append_drop]
  have e2 : (u.drop 4).take 2 ++ u.drop 6 = u.drop 4 := by
    rw [show (6 : Nat) = 4 + 2 from rfl, ← List.drop_drop, List.take_append_drop]
  simp only [List.append_assoc]
  rw [e4, e3, e2, List.take_append_drop]
  simp

/-- The hyphenated rendering of a 16-byte uuid has 36 characters. -/
theorem uuidHyphenBytes_length (u : UuidT) (h16 : u.length = 16) :
    (uuidHyphenBytes u).length = 36 := by
  simp [uuidHyphenBytes, hexChars_length, h16]

/-- C6: for every 16-byte uuid and receipt kind, `create_receipt` emits the
43-byte frame `RCPT:` + `D`|`R` + `:` + the 36-character hyphenated uuid,
and `parse_receipt` of that emission returns the same uuid and kind. -/
theorem C6_receipt_roundtrip (u : UuidT) (rt : ReceiptType) (h16 : u.length = 16)
    (hb : ∀ b ∈ u, b < 256) :
    (create_receipt u rt).length = 43 ∧
    parse_receipt (create_receipt u rt) = some (u, rt) := by
  have hu36 := uuidHyphenBytes_length u h16
  constructor
  · cases rt <;> simp [create_receipt, rcptTag, hu36]
  · have hsplit : ∀ c : Nat, (rcptTag ++ ([c, 58] ++ uuidHyphenBytes u)).drop 5
        = c :: 58 :: uuidHyphenBytes u := by
      intro c
      rw [List.drop_left' (by rfl)]
      rfl
    have hpre : ∀ c : Nat,
        rcptTag.isPrefixOf (rcptTag ++ ([c, 58] ++ uuidHyphenBytes u)) = true := by
      intro c
      rw [List.isPrefixOf_iff_prefix]
      exact List.prefix_append _ _
    cases rt
    · show parse_receipt (rcptTag ++ ([68, 58] ++ uuidHyphenBytes u)) = _
      unfold parse_receipt
      rw [if_pos (hpre 68), hsplit 68]
      rw [if_neg (by simp only [List.length_cons, hu36]; omega)]
      show (match uuidParse36 (List.take 36 (uuidHyphenBytes u)) with
        | some uu => some (uu, ReceiptType.Delivered)
        | none => none) = some (u, ReceiptType.Delivered)
      rw [← hu36, List.take_length, uuidParse36_uuidHyphenBytes u h16 hb]
    · show parse_receipt (rcptTag ++ ([82, 58] ++ uuidHyphenBytes u)) = _
      unfold parse_receipt
      rw [if_pos (hpre 82), hsplit 82]
      rw [if_neg (by simp only [List.length_cons, hu36]; omega)]
      show (match uuidParse36 (List.take 36 (uuidHyphenBytes u)) with
        | some uu => some (uu, ReceiptType.Read)
        | none => none) = some (u, ReceiptType.Read)
      rw [← hu36, List.take_length, uuidParse36_uuidHyphenBytes u h16 hb]

/-- Witness for C6 at the concrete uuid with bytes 0 to 15. -/
theorem C6_receipt_roundtrip_witness :
    (create_receipt (List.range 16) ReceiptType.Delivered).length = 43 ∧
    parse_receipt (create_receipt (List.range 16) ReceiptType.Delivered) =
      some (List.range 16, ReceiptType.Delivered) :=
  C6_receipt_roundtrip (List.range 16) ReceiptType.Delivered (by decide) (by decide)

/-- Reading an element past a drop reads at the shifted index. -/
theorem getD_drop : ∀ (l : List Nat) (n i d : Nat), (l.drop n).getD i d = l.getD (n + i) d
  | _, 0, _, _ => by simp
  | [], _ + 1, _, _ => by simp
  | _ :: xs, n + 1, i, d => by
    show (xs.drop n).getD i d = _
    rw [getD_drop xs n i d, show n + 1 + i = (n + i) + 1 by omega]
    simp [List.getD]

/-- C7: every buffer that starts with `RCPT:` but is malformed — shorter
than 43 bytes, or its discriminant byte (index 5) is neither `D` nor `R`, or
byte 6 is not a colon, or bytes 7..43 are not a valid hyphenated uuid — is
rejected by `parse_receipt` (and hence classified as text by the caller
rather than silently applied). -/
theorem C7_malformed_receipt_is_text (data : List Nat)
    (hpre : rcptTag.isPrefixOf data = true)
    (hbad : data.length < 43 ∨ (data.getD 5 0 ≠ 68 ∧ data.getD 5 0 ≠ 82) ∨
      data.getD 6 0 ≠ 58 ∨ uuidParse36 ((data.drop 7).take 36) = none) :
    parse_receipt data = none := by
  unfold parse_receipt
  rw [if_pos hpre]
  have h5 : (data.drop 5).length = data.length - 5 := List.length_drop 5 data
  by_cases hlen : (data.drop 5).length < 38
  · rw [if_pos hlen]
  · rw [if_neg hlen]
    have hlen43 : ¬data.length < 43 := by omega
    have hg0 : (data.drop 5).getD 0 0 = data.getD 5 0 := by
      rw [getD_drop]
    have hg1 : (data.drop 5).getD 1 0 = data.getD 6 0 := by
      rw [getD_drop]
    have hg2 : ((data.drop 5).drop 2).take 36 = (data.drop 7).take 36 := by
      rw [List.drop_drop]
    rcases hbad with h | ⟨hd, hr⟩ | h | h
    · exact absurd h hlen43
    · rw [hg0] at *
      rw [if_neg hd, if_neg hr]
    · by_cases hdisc : data.getD 5 0 = 68
      · rw [hg0, if_pos hdisc]
        simp only []
        rw [hg1, if_pos h]
      · by_cases hdisc2 : data.getD 5 0 = 82
        · rw [hg0, if_neg hdisc, if_pos hdisc2]
          simp only []
          rw [hg1, if_pos h]
        · rw [hg0, if_neg hdisc, if_neg hdisc2]
    · by_cases hcolon : data.getD 6 0 ≠ 58
      · by_cases hdisc : data.getD 5 0 = 68
        · rw [hg0, if_pos hdisc]
          simp only []
          rw [hg1, if_pos hcolon]
        · by_cases hdisc2 : data.getD 5 0 = 82
          · rw [hg0, if_neg hdisc, if_pos hdisc2]
            simp only []
            rw [hg1, if_pos hcolon]
          · rw [hg0, if_neg hdisc, if_neg hdisc2]
      · by_cases hdisc : data.getD 5 0 = 68
        · rw [hg0, if_pos hdisc]
          simp only []
          rw [hg1, if_neg hcolon, hg2, h]
        · by_cases hdisc2 : data.getD 5 0 = 82
          · rw [hg0, if_neg hdisc, if_pos hdisc2]
            simp only []
            rw [hg1, if_neg hcolon, hg2, h]
          · rw [hg0, if_neg hdisc, if_neg hdisc2]

/-- Witness for C7 at the concrete buffer `RCPT:X:` + 36 zeros (wrong
discriminant). -/
theorem C7_malformed_receipt_is_text_witness :
    parse_receipt (rcptTag ++ [88, 58] ++ List.replicate 36 48) = none :=
  C7_malformed_receipt_is_text (rcptTag ++ [88, 58] ++ List.replicate 36 48)
    (by decide) (by decide)

/-- C2 counterexample: the claim says an update that moves a stored status
backwards (Pending is earlier than Delivered) is ignored; on the code, the
unconditional SQL UPDATE embedded in `update_message_status` overwrites the
stored Delivered status with Pending at this concrete one-row table. -/
theorem C2_counterexample :
    lookupStatus (update_message_status [(List.replicate 16 0, MessageStatus.Delivered)]
      (List.replicate 16 0) MessageStatus.Pending).1 (List.replicate 16 0) =
      some MessageStatus.Pending ∧
    status_priority MessageStatus.Pending < status_priority MessageStatus.Delivered ∧
    some MessageStatus.Pending ≠ some MessageStatus.Delivered := by
  decide

/-- Updated status is found for the updated id when a row with it exists. -/
theorem lookupStatus_update_hit : ∀ (tbl : List (UuidT × MessageStatus)) (i : UuidT)
    (s : MessageStatus), (∃ r ∈ tbl, r.1 = i) →
    lookupStatus (update_message_status tbl i s).1 i = some s
  | [], _, _, h => by simp at h
  | r :: rest, i, s, h => by
    by_cases hr : r.1 = i
    · simp [update_message_status, lookupStatus, List.find?, hr]
    · have hrest : ∃ x ∈ rest, x.1 = i := by
        rcases h with ⟨x, hx, hxi⟩
        rcases List.mem_cons.mp hx with rfl | hx2
        · exact absurd hxi hr
        · exact ⟨x, hx2, hxi⟩
      have ih := lookupStatus_update_hit rest i s hrest
      simpa [update_message_status, lookupStatus, List.find?, hr] using ih

/-- Rows with a different id keep their stored status across the update. -/
theorem lookupStatus_update_miss : ∀ (tbl : List (UuidT × MessageStatus)) (i j : UuidT)
    (s : MessageStatus), j ≠ i →
    lookupStatus (update_message_status tbl i s).1 j = lookupStatus tbl j
  | [], _, _, _, _ => rfl
  | r :: rest, i, j, s, hj => by
    have ih := lookupStatus_update_miss rest i j s hj
    have hij : ¬i = j := fun hh => hj hh.symm
    by_cases hr : r.1 = i
    · have hrj : ¬r.1 = j := fun hh => hj (hh ▸ hr)
      simpa [update_message_status, lookupStatus, List.find?, hr, hrj, hij, hj] using ih
    · by_cases hrj : r.1 = j
      · simp [update_message_status, lookupStatus, List.find?, hr, hrj, hij, hj]
      · simpa [update_message_status, lookupStatus, List.find?, hr, hrj, hij, hj] using ih

/-- C2 amended: `update_message_status` enforces no monotonicity — it
unconditionally overwrites the stored status of the given id with the new
one (backwards included), returns true exactly when a row with the id
exists, and leaves other ids untouched. -/
theorem C2_update_overwrites (tbl : List (UuidT × MessageStatus)) (i j : UuidT)
    (s : MessageStatus) (hpresent : ∃ r ∈ tbl, r.1 = i) (hj : j ≠ i) :
    (update_message_status tbl i s).2 = true ∧
    lookupStatus (update_message_status tbl i s).1 i = some s ∧
    lookupStatus (update_message_status tbl i s).1 j = lookupStatus tbl j := by
  refine ⟨?_, lookupStatus_update_hit tbl i s hpresent, lookupStatus_update_miss tbl i j s hj⟩
  simp only [update_message_status, List.any_eq_true, decide_eq_true_eq]
  exact hpresent

/-- Witness for C2's amended statement at a concrete two-row table. -/
theorem C2_update_overwrites_witness :
    (update_message_status [(List.replicate 16 0, MessageStatus.Delivered),
      (List.replicate 16 2, MessageStatus.Sent)] (List.replicate 16 0)
      MessageStatus.Pending).2 = true ∧
    lookupStatus (update_message_status [(List.replicate 16 0, MessageStatus.Delivered),
      (List.replicate 16 2, MessageStatus.Sent)] (List.replicate 16 0)
      MessageStatus.Pending).1 (List.replicate 16 0) = some MessageStatus.Pending ∧
    lookupStatus (update_message_status [(List.replicate 16 0, MessageStatus.Delivered),
      (List.replicate 16 2, MessageStatus.Sent)] (List.replicate 16 0)
      MessageStatus.Pending).1 (List.replicate 16 2) =
      lookupStatus [(List.replicate 16 0, MessageStatus.Delivered),
        (List.replicate 16 2, MessageStatus.Sent)] (List.replicate 16 2) :=
  C2_update_overwrites [(List.replicate 16 0, MessageStatus.Delivered),
    (List.replicate 16 2, MessageStatus.Sent)] (List.replicate 16 0) (List.replicate 16 2)
    MessageStatus.Pending (by decide) (by decide)

/-- Submitting fresh-id messages for one peer appends one row per submit, in
submit order, to the pending table. -/
theorem submitAll_eq : ∀ (subs : List Submit) (tbl : List PendingRow) (p : Nat),
    (∀ s ∈ subs, ∀ r ∈ tbl, r.id ≠ s.id) → (subs.map Submit.id).Nodup →
    submitAll tbl p subs =
      tbl ++ subs.map (fun s => (⟨s.id, p, s.payload, s.time, 0⟩ : PendingRow))
  | [], tbl, p, _, _ => by simp [submitAll]
  | s :: rest, tbl, p, hfresh, hnodup => by
    have hq : queue_pending_message tbl s.id p s.payload s.time =
        tbl ++ [(⟨s.id, p, s.payload, s.time, 0⟩ : PendingRow)] := by
      unfold queue_pending_message
      congr 1
      rw [List.filter_eq_self]
      intro r hr
      simpa using hfresh s (List.mem_cons_self s rest) r hr
    have hnd : s.id ∉ rest.map Submit.id ∧ (rest.map Submit.id).Nodup := by
      have h' := hnodup
      rw [List.map_cons, List.nodup_cons] at h'
      exact h'
    have hnodup' := hnd.2
    have hnotin := hnd.1
    have hfresh' : ∀ x ∈ rest, ∀ r ∈ tbl ++ [(⟨s.id, p, s.payload, s.time, 0⟩ : PendingRow)],
        r.id ≠ x.id := by
      intro x hx r hr
      rcases List.mem_append.mp hr with hr1 | hr2
      · exact hfresh x (List.mem_cons_of_mem s hx) r hr1
      · rcases List.mem_singleton.mp hr2 with rfl
        intro hh
        apply hnotin
        show s.id ∈ _
        rw [show s.id = x.id from hh]
        exact List.mem_map_of_mem Submit.id hx
    show submitAll (queue_pending_message tbl s.id p s.payload s.time) p rest = _
    rw [hq, submitAll_eq rest _ p hfresh' hnodup']
    simp

/-- C3: for every sequence of submits for one offline peer (fresh distinct
message ids, enqueue times non-decreasing in submit order) followed by one
Connected event, the flush loop hands the encrypted payloads to the
transport in submit order; `get_pending_for_peer` reads the rows in
ascending enqueue-time order. -/
theorem C3_flush_in_submit_order (tbl : List PendingRow) (p : Nat) (subs : List Submit)
    (hclean : ∀ r ∈ tbl, r.toPeer ≠ p)
    (hnodup : (subs.map Submit.id).Nodup)
    (hfresh : ∀ s ∈ subs, ∀ r ∈ tbl, r.id ≠ s.id)
    (hsorted : List.Pairwise (fun a b : Submit => a.time ≤ b.time) subs) :
    (flushPending (submitAll tbl p subs) p).1 = subs.map Submit.payload ∧
    List.Sorted rowLe
      (List.insertionSort rowLe ((submitAll tbl p subs).filter (fun r => r.toPeer = p))) := by
  refine ⟨?_, List.sorted_insertionSort rowLe _⟩
  have he := submitAll_eq subs tbl p hfresh hnodup
  show (get_pending_for_peer (submitAll tbl p subs) p).map (fun e => e.2) = _
  unfold get_pending_for_peer
  rw [he, List.filter_append]
  rw [List.filter_eq_nil_iff.mpr (by intro r hr; simpa using hclean r hr)]
  rw [List.filter_eq_self.mpr (by
    intro r hr
    rcases List.mem_map.mp hr with ⟨s, _, rfl⟩
    simp)]
  rw [List.nil_append]
  rw [List.Sorted.insertionSort_eq (by
    rw [List.Sorted, List.pairwise_map]
    exact hsorted)]
  simp [List.map_map, Function.comp]

/-- Witness for C3 at two concrete submits with equal enqueue times. -/
theorem C3_flush_in_submit_order_witness :
    (flushPending (submitAll [] 1 [⟨[0], [10], 5⟩, ⟨[1], [20], 5⟩]) 1).1 = [[10], [20]] ∧
    List.Sorted rowLe
      (List.insertionSort rowLe
        ((submitAll [] 1 [⟨[0], [10], 5⟩, ⟨[1], [20], 5⟩]).filter (fun r => r.toPeer = 1))) :=
  C3_flush_in_submit_order [] 1 [⟨[0], [10], 5⟩, ⟨[1], [20], 5⟩]
    (by simp) (by decide) (by simp) (by decide)

/-- C4 counterexample: the claim says submitting to a Blocked contact is
rejected with an error and nothing queued, and inbound payloads from a
Blocked peer are dropped before decryption.  On the code, `handle_send` to a
Blocked contact at this concrete state succeeds, stores the message and
queues the encrypted payload; the inbound handler stores a message from the
Blocked peer rather than dropping it. -/
theorem C4_counterexample :
    handle_send (fun _ => Except.error "no-key") (fun _ _ => Except.error "no-key")
      ⟨[⟨7, "mallory", [], TrustLevel.Blocked⟩], [], []⟩ 1 "mallory" [104, 105]
      (List.replicate 16 3) 0 =
      Except.ok (⟨[⟨7, "mallory", [], TrustLevel.Blocked⟩],
        [⟨List.replicate 16 3, 1, 7, [104, 105], MessageStatus.Pending⟩],
        [⟨List.replicate 16 3, 7, [104, 105], 0, 0⟩]⟩, (7, [104, 105])) ∧
    (handleInbound (fun _ => Except.error "no-key")
      ⟨[⟨7, "mallory", [], TrustLevel.Blocked⟩], [], []⟩ 1 7 [104, 105]
      (List.replicate 16 4)).1.messages =
      [⟨List.replicate 16 4, 7, 1, [104, 105], MessageStatus.Pending⟩] := by
  decide

/-- C4 amended: neither the submit path nor the inbound path consults the
contact's trust level.  `handle_send` to any contact found by alias — a
Blocked one included — succeeds, inserts the message with status Pending and
queues the encrypted payload for that peer; the inbound handler decrypts and
processes a payload from a Blocked peer like any other, inserting the
message (when it is not a receipt) and answering with a delivery receipt. -/
theorem C4_trust_never_consulted (edToX : List Nat → Except String (List Nat))
    (encM : List Nat → List Nat → Except String (List Nat))
    (decM : List Nat → Except String (List Nat)) (db : DbState) (ourPeer : Nat)
    (a : String) (text : List Nat) (mid : UuidT) (now : Nat) (c : Contact)
    (fromPeer : Nat) (data : List Nat) (nid : UuidT)
    (hc : get_contact_by_alias db.contacts a = some c)
    (hblocked : c.trustLevel = TrustLevel.Blocked)
    (hnr : parse_receipt (decryptOrRaw decM data) = none) :
    (∃ db2 payload, handle_send edToX encM db ourPeer a text mid now =
        Except.ok (db2, (c.peerId, payload)) ∧
      (∃ r ∈ db2.pending, r.id = mid ∧ r.toPeer = c.peerId ∧ r.data = payload) ∧
      (∃ m ∈ db2.messages, m.id = mid ∧ m.status = MessageStatus.Pending)) ∧
    (∃ m ∈ (handleInbound decM db ourPeer fromPeer data nid).1.messages,
        m.id = nid ∧ m.fromPeer = fromPeer) ∧
    (handleInbound decM db ourPeer fromPeer data nid).2 =
      [(fromPeer, create_receipt nid ReceiptType.Delivered)] := by
  constructor
  · unfold handle_send
    rw [hc]
    refine ⟨_, _, rfl, ⟨⟨mid, c.peerId, _, now, 0⟩, ?_, rfl, rfl, rfl⟩,
      ⟨⟨mid, ourPeer, c.peerId, text, MessageStatus.Pending⟩, ?_, rfl, rfl⟩⟩
    · exact List.mem_append_right _ (List.mem_singleton.mpr rfl)
    · exact List.mem_append_right _ (List.mem_singleton.mpr rfl)
  · simp only [handleInbound]
    rw [hnr]
    exact ⟨⟨⟨nid, fromPeer, ourPeer, decryptOrRaw decM data, MessageStatus.Pending⟩,
      List.mem_append_right _ (List.mem_singleton.mpr rfl), rfl, rfl⟩, rfl⟩

/-- Witness for C4's amended statement at the concrete Blocked contact. -/
theorem C4_trust_never_consulted_witness :
    (∃ db2 payload, handle_send (fun _ => Except.error "no-key")
        (fun _ _ => Except.error "no-key")
        ⟨[⟨7, "mallory", [], TrustLevel.Blocked⟩], [], []⟩ 1 "mallory" [104, 105]
        (List.replicate 16 3) 0 = Except.ok (db2, (7, payload)) ∧
      (∃ r ∈ db2.pending, r.id = List.replicate 16 3 ∧ r.toPeer = 7 ∧ r.data = payload) ∧
      (∃ m ∈ db2.messages, m.id = List.replicate 16 3 ∧ m.status = MessageStatus.Pending)) ∧
    (∃ m ∈ (handleInbound (fun _ => Except.error "no-key")
        ⟨[⟨7, "mallory", [], TrustLevel.Blocked⟩], [], []⟩ 1 7 [104, 105]
        (List.replicate 16 4)).1.messages,
      m.id = List.replicate 16 4 ∧ m.fromPeer = 7) ∧
    (handleInbound (fun _ => Except.error "no-key")
        ⟨[⟨7, "mallory", [], TrustLevel.Blocked⟩], [], []⟩ 1 7 [104, 105]
        (List.replicate 16 4)).2 =
      [(7, create_receipt (List.replicate 16 4) ReceiptType.Delivered)] :=
  C4_trust_never_consulted (fun _ => Except.error "no-key")
    (fun _ _ => Except.error "no-key") (fun _ => Except.error "no-key")
    ⟨[⟨7, "mallory", [], TrustLevel.Blocked⟩], [], []⟩ 1 "mallory" [104, 105]
    (List.replicate 16 3) 0 ⟨7, "mallory", [], TrustLevel.Blocked⟩ 7 [104, 105]
    (List.replicate 16 4) (by decide) (by decide) (by decide)

/-- Finding in an appended list skips an unmatched first part. -/
theorem find?_append_none {α : Type _} (p : α → Bool) : ∀ (l₁ l₂ : List α),
    List.find? p l₁ = none → List.find? p (l₁ ++ l₂) = List.find? p l₂
  | [], _, _ => rfl
  | x :: l₁, l₂, h => by
    rcases hx : p x with hf | ht
    · rw [List.cons_append, List.find?_cons_of_neg _ (by simp [hx])]
      apply find?_append_none p l₁ l₂
      rw [List.find?_cons_of_neg _ (by simp [hx])] at h
      exact h
    · rw [List.find?_cons_of_pos _ hx] at h
      exact absurd h (by simp)

/-- Finding in an appended list keeps a hit in the first part. -/
theorem find?_append_some {α : Type _} (p : α → Bool) (a : α) : ∀ (l₁ l₂ : List α),
    List.find? p l₁ = some a → List.find? p (l₁ ++ l₂) = some a
  | [], _, h => by simp at h
  | x :: l₁, l₂, h => by
    rcases hx : p x with hf | ht
    · rw [List.find?_cons_of_neg _ (by simp [hx])] at h
      rw [List.cons_append, List.find?_cons_of_neg _ (by simp [hx])]
      exact find?_append_some p a l₁ l₂ h
    · rw [List.find?_cons_of_pos _ hx] at h
      rw [List.cons_append, List.find?_cons_of_pos _ hx]
      exact h

/-- A satisfied `any` yields a `find?` hit. -/
theorem find?_isSome_of_any {α : Type _} (p : α → Bool) : ∀ (l : List α),
    l.any p = true → ∃ a, List.find? p l = some a
  | [], h => by simp at h
  | x :: l, h => by
    rcases hx : p x with hf | ht
    · rw [List.any_cons, hx, Bool.false_or] at h
      obtain ⟨a, ha⟩ := find?_isSome_of_any p l h
      exact ⟨a, by rw [List.find?_cons_of_neg _ (by simp [hx])]; exact ha⟩
    · exact ⟨x, List.find?_cons_of_pos _ hx⟩

/-- Upserting a message makes it the value stored under its id. -/
theorem lookupById_upsert_self : ∀ (m : List (UuidT × SyncMsg)) (msg : SyncMsg),
    lookupById (upsertById m msg) msg.id = some msg := by
  have hmap : ∀ (m : List (UuidT × SyncMsg)) (msg : SyncMsg),
      m.any (fun e => e.1 = msg.id) = true →
      List.find? (fun e => e.1 = msg.id)
        (m.map (fun e => if e.1 = msg.id then (msg.id, msg) else e)) = some (msg.id, msg) := by
    intro m msg
    induction m with
    | nil => intro h; simp at h
    | cons e rest ih =>
      intro h
      by_cases he : e.1 = msg.id
      · simp [List.find?, he]
      · have h2 : rest.any (fun e => e.1 = msg.id) = true := by
          rw [List.any_cons, decide_eq_false he, Bool.false_or] at h
          exact h
        simpa [List.find?, he] using ih h2
  intro m msg
  unfold upsertById lookupById
  by_cases hany : m.any (fun e => e.1 = msg.id) = true
  · rw [if_pos hany, hmap m msg hany]
    rfl
  · rw [if_neg hany]
    have hnone : List.find? (fun e => decide (e.1 = msg.id)) m = none := by
      cases hfind : List.find? (fun e => decide (e.1 = msg.id)) m with
      | none => rfl
      | some a => exact absurd (List.any_eq_true.mpr
          ⟨a, List.mem_of_find?_eq_some hfind, List.find?_some hfind⟩) hany
    rw [find?_append_none _ _ _ hnone]
    simp [List.find?]

/-- Upserting a message leaves lookups of other ids unchanged. -/
theorem lookupById_upsert_other (m : List (UuidT × SyncMsg)) (msg : SyncMsg) (j : UuidT)
    (hj : j ≠ msg.id) : lookupById (upsertById m msg) j = lookupById m j := by
  have hmj : ¬msg.id = j := fun hh => hj hh.symm
  have hmap : ∀ (mm : List (UuidT × SyncMsg)),
      List.find? (fun e => e.1 = j)
        (mm.map (fun e => if e.1 = msg.id then (msg.id, msg) else e)) =
      List.find? (fun e => e.1 = j) mm := by
    intro mm
    induction mm with
    | nil => rfl
    | cons e rest ih =>
      by_cases he : e.1 = msg.id
      · have hej : ¬e.1 = j := by rw [he]; exact hmj
        simpa [List.find?, he, hej, hmj, hj] using ih
      · by_cases hej : e.1 = j
        · simp [List.find?, he, hej, hmj, hj]
        · simpa [List.find?, he, hej, hmj, hj] using ih
  unfold upsertById lookupById
  by_cases hany : m.any (fun e => e.1 = msg.id) = true
  · rw [if_pos hany, hmap]
  · rw [if_neg hany]
    cases hfind : List.find? (fun e => decide (e.1 = j)) m with
    | none =>
      rw [find?_append_none _ _ _ hfind]
      simp [List.find?, hmj]
    | some a =>
      rw [find?_append_some _ _ _ _ hfind]

/-- Folding upserts of messages with other ids leaves a lookup unchanged. -/
theorem lookupById_foldl_upsert_untouched : ∀ (msgs : List SyncMsg)
    (acc : List (UuidT × SyncMsg)) (i : UuidT), (∀ x ∈ msgs, x.id ≠ i) →
    lookupById (msgs.foldl upsertById acc) i = lookupById acc i
  | [], _, _, _ => rfl
  | x :: msgs, acc, i, h => by
    show lookupById (msgs.foldl upsertById (upsertById acc x)) i = _
    rw [lookupById_foldl_upsert_untouched msgs _ i
      (fun y hy => h y (List.mem_cons_of_mem x hy)),
      lookupById_upsert_other acc x i
      (fun hh => h x (List.mem_cons_self x msgs) hh.symm)]

/-- After upserting a list of messages with distinct ids, each one is stored
under its id. -/
theorem lookupById_foldl_upsert_mem : ∀ (msgs : List SyncMsg)
    (acc : List (UuidT × SyncMsg)) (m : SyncMsg), (msgs.map SyncMsg.id).Nodup →
    m ∈ msgs → lookupById (msgs.foldl upsertById acc) m.id = some m
  | [], _, _, _, hm => by simp at hm
  | x :: msgs, acc, m, hnd, hm => by
    have hnd' : x.id ∉ msgs.map SyncMsg.id ∧ (msgs.map SyncMsg.id).Nodup := by
      have h' := hnd
      rw [List.map_cons, List.nodup_cons] at h'
      exact h'
    rcases List.mem_cons.mp hm with rfl | hm2
    · show lookupById (msgs.foldl upsertById (upsertById acc m)) m.id = some m
      rw [lookupById_foldl_upsert_untouched msgs _ m.id
        (fun y hy hh => hnd'.1 (hh ▸ List.mem_map_of_mem SyncMsg.id hy)),
        lookupById_upsert_self]
    · exact lookupById_foldl_upsert_mem msgs _ m hnd'.2 hm2

/-- One merge step leaves lookups of other ids unchanged. -/
theorem mergeRemoteStep_other (acc : List (UuidT × SyncMsg)) (r : SyncMsg) (j : UuidT)
    (hj : j ≠ r.id) : lookupById (mergeRemoteStep acc r) j = lookupById acc j := by
  unfold mergeRemoteStep
  cases h : lookupById acc r.id with
  | none => exact lookupById_upsert_other acc r j hj
  | some ex =>
    simp only []
    by_cases hp : status_priority ex.status < status_priority r.status
    · rw [if_pos hp]
      exact lookupById_upsert_other acc r j hj
    · rw [if_neg hp]

/-- Folding merge steps of messages with other ids leaves a lookup
unchanged. -/
theorem mergeRemote_foldl_untouched : ∀ (rs : List SyncMsg)
    (acc : List (UuidT × SyncMsg)) (i : UuidT), (∀ x ∈ rs, x.id ≠ i) →
    lookupById (rs.foldl mergeRemoteStep acc) i = lookupById acc i
  | [], _, _, _ => rfl
  | x :: rs, acc, i, h => by
    show lookupById (rs.foldl mergeRemoteStep (mergeRemoteStep acc x)) i = _
    rw [mergeRemote_foldl_untouched rs _ i (fun y hy => h y (List.mem_cons_of_mem x hy)),
      mergeRemoteStep_other acc x i (fun hh => h x (List.mem_cons_self x rs) hh.symm)]

/-- After the remote merge loop, an id stored as the local copy holds the
status-priority winner of the local and remote copies. -/
theorem mergeRemote_winner : ∀ (rs : List SyncMsg) (acc : List (UuidT × SyncMsg))
    (r l : SyncMsg), (rs.map SyncMsg.id).Nodup → r ∈ rs →
    lookupById acc r.id = some l →
    lookupById (rs.foldl mergeRemoteStep acc) r.id =
      some (if status_priority l.status < status_priority r.status then r else l)
  | [], _, _, _, _, hm, _ => by simp at hm
  | x :: rs, acc, r, l, hnd, hm, hacc => by
    have hnd' : x.id ∉ rs.map SyncMsg.id ∧ (rs.map SyncMsg.id).Nodup := by
      have h' := hnd
      rw [List.map_cons, List.nodup_cons] at h'
      exact h'
    rcases List.mem_cons.mp hm with rfl | hm2
    · show lookupById (rs.foldl mergeRemoteStep (mergeRemoteStep acc r)) r.id = _
      rw [mergeRemote_foldl_untouched rs _ r.id
        (fun y hy hh => hnd'.1 (hh ▸ List.mem_map_of_mem SyncMsg.id hy))]
      unfold mergeRemoteStep
      rw [hacc]
      simp only []
      by_cases hp : status_priority l.status < status_priority r.status
      · rw [if_pos hp, if_pos hp]
        exact lookupById_upsert_self acc r
      · rw [if_neg hp, if_neg hp]
        exact hacc
    · have hxr : r.id ≠ x.id :=
        fun hh => hnd'.1 (hh ▸ List.mem_map_of_mem SyncMsg.id hm2)
      exact mergeRemote_winner rs _ r l hnd'.2 hm2
        ((mergeRemoteStep_other acc x r.id hxr).trans hacc)

/-- A stored value is among the map's values. -/
theorem lookupById_mem_values (m : List (UuidT × SyncMsg)) (i : UuidT) (v : SyncMsg)
    (h : lookupById m i = some v) : v ∈ m.map (fun e => e.2) := by
  unfold lookupById at h
  rcases Option.map_eq_some'.mp h with ⟨e, he, hev⟩
  exact hev ▸ List.mem_map_of_mem _ (List.mem_of_find?_eq_some he)

/-- C8: when a message id occurs in both inputs of `merge_messages` (ids
unique within each input), the merged list keeps the copy whose status has
the strictly higher priority in Pending < Sent < Delivered < Read < Failed
and keeps the local copy on ties — in particular a remote Failed copy
replaces a local Read copy — and the merged list is sorted by timestamp
ascending. -/
theorem C8_merge_priority_and_sorted (localMsgs remoteMsgs : List SyncMsg)
    (l r : SyncMsg) (hln : (localMsgs.map SyncMsg.id).Nodup)
    (hrn : (remoteMsgs.map SyncMsg.id).Nodup) (hl : l ∈ localMsgs)
    (hr : r ∈ remoteMsgs) (hid : r.id = l.id) :
    (if status_priority l.status < status_priority r.status then r else l) ∈
      merge_messages localMsgs remoteMsgs ∧
    List.Sorted tsLe (merge_messages localMsgs remoteMsgs) := by
  constructor
  · have h1 : lookupById (localMsgs.foldl upsertById []) r.id = some l := by
      rw [hid]
      exact lookupById_foldl_upsert_mem localMsgs [] l hln hl
    have h2 := mergeRemote_winner remoteMsgs _ r l hrn hr h1
    unfold merge_messages
    rw [(List.perm_insertionSort tsLe _).mem_iff]
    exact lookupById_mem_values _ _ _ h2
  · exact List.sorted_insertionSort tsLe _

/-- Witness for C8: a remote Failed copy replaces the local Read copy of the
same concrete message. -/
theorem C8_merge_priority_and_sorted_witness :
    (if status_priority MessageStatus.Read < status_priority (MessageStatus.Failed "network")
      then (⟨[1], 10, MessageStatus.Failed "network", "x"⟩ : SyncMsg)
      else (⟨[1], 10, MessageStatus.Read, "x"⟩ : SyncMsg)) ∈
      merge_messages [⟨[1], 10, MessageStatus.Read, "x"⟩]
        [⟨[1], 10, MessageStatus.Failed "network", "x"⟩] ∧
    List.Sorted tsLe (merge_messages [⟨[1], 10, MessageStatus.Read, "x"⟩]
      [⟨[1], 10, MessageStatus.Failed "network", "x"⟩]) :=
  C8_merge_priority_and_sorted [⟨[1], 10, MessageStatus.Read, "x"⟩]
    [⟨[1], 10, MessageStatus.Failed "network", "x"⟩]
    ⟨[1], 10, MessageStatus.Read, "x"⟩ ⟨[1], 10, MessageStatus.Failed "network", "x"⟩
    (by decide) (by decide) (by decide) (by decide) (by decide)

/-- Enqueueing appends the message at the back of the queue of its key peer
(the recipient for a direct message, the sender for a group message), and no
other peer's queue changes. -/
theorem mqGetQueue_enqueue (q : MessageQueueT) (msg : QMessage) (p : Nat) :
    mqGetQueue (mqEnqueue q msg) p =
      if p = (match msg.recipient with
        | Recipient.Direct peer => peer
        | Recipient.Group _ => msg.fromPeer) then mqGetQueue q p ++ [msg]
      else mqGetQueue q p := by
  set k := (match msg.recipient with
    | Recipient.Direct peer => peer
    | Recipient.Group _ => msg.fromPeer) with hk
  have hmap : ∀ (qq : MessageQueueT),
      mqGetQueue (qq.map (fun e => if e.1 = k then (e.1, e.2 ++ [msg]) else e)) p =
        (match List.find? (fun e => e.1 = p) qq with
          | some e => if e.1 = k then e.2 ++ [msg] else e.2
          | none => []) := by
    intro qq
    induction qq with
    | nil => rfl
    | cons e rest ih =>
      by_cases he2 : e.1 = k
      · by_cases he : e.1 = p
        · have hpk : p = k := by rw [← he, he2]
          simp [mqGetQueue, List.find?, he, he2, hpk]
        · have hpk : ¬p = k := fun hh => he (by rw [he2, ← hh])
          have hkp : ¬k = p := fun hh => hpk hh.symm
          simpa [mqGetQueue, List.find?, he, he2, hpk, hkp] using ih
      · by_cases he : e.1 = p
        · have hpk : ¬p = k := fun hh => he2 (by rw [he, hh])
          simp [mqGetQueue, List.find?, he, he2, hpk]
        · simpa [mqGetQueue, List.find?, he, he2] using ih
  have keyf : ∀ (qq : MessageQueueT) (x : Nat) (a : Nat × List QMessage),
      List.find? (fun e => decide (e.1 = x)) qq = some a → a.1 = x := by
    intro qq x a ha
    have h2 := List.find?_some ha
    simpa using h2
  unfold mqEnqueue
  rw [← hk]
  by_cases hany : List.any q (fun e => e.1 = k) = true
  · rw [if_pos hany, hmap]
    by_cases hp : p = k
    · subst hp
      obtain ⟨a, ha⟩ := find?_isSome_of_any _ q hany
      rw [if_pos rfl, ha]
      simp only []
      rw [if_pos (keyf q k a ha)]
      unfold mqGetQueue
      rw [ha]
    · rw [if_neg hp]
      unfold mqGetQueue
      cases ha : List.find? (fun e => decide (e.1 = p)) q with
      | none => rfl
      | some a =>
        simp only []
        rw [if_neg (fun hh => hp (by rw [← keyf q p a ha]; exact hh))]
  · rw [if_neg hany]
    have hnone : ∀ x ∈ q, ¬x.1 = k := by
      intro x hx hh
      exact hany (List.any_eq_true.mpr ⟨x, hx, decide_eq_true hh⟩)
    by_cases hp : p = k
    · subst hp
      rw [if_pos rfl]
      have hfind : List.find? (fun e => decide (e.1 = k)) q = none := by
        cases hfind : List.find? (fun e => decide (e.1 = k)) q with
        | none => rfl
        | some a =>
          exact absurd (keyf q k a hfind) (hnone a (List.mem_of_find?_eq_some hfind))
      unfold mqGetQueue
      rw [find?_append_none _ _ _ hfind, hfind]
      rw [List.find?_cons_of_pos _ (by simp)]
      rfl
    · rw [if_neg hp]
      unfold mqGetQueue
      cases hfind : List.find? (fun e => decide (e.1 = p)) q with
      | none =>
        rw [find?_append_none _ _ _ hfind]
        rw [List.find?_cons_of_neg _ (by
          simp only [decide_eq_true_eq]
          exact fun hh => hp hh.symm)]
        rfl
      | some a =>
        rw [find?_append_some _ _ _ _ hfind]

/-- The dequeued element is the head of the peer's stored queue. -/
theorem mqDequeue_fst (q : MessageQueueT) (p : Nat) :
    (mqDequeue q p).1 = (mqGetQueue q p).head? := by
  unfold mqDequeue
  cases mqGetQueue q p <;> rfl

/-- C10: enqueueing a message addressed to a group stores it in the queue
keyed by the message's sender: the sender's pending count grows by one,
every other peer's queue — any group member's included — is unchanged, and
dequeueing such a peer never returns the message. -/
theorem C10_group_enqueue_under_sender (q : MessageQueueT) (msg : QMessage)
    (gid : UuidT) (p : Nat) (hg : msg.recipient = Recipient.Group gid)
    (hp : p ≠ msg.fromPeer) (hnot : msg ∉ mqGetQueue q p) :
    mqPendingCount (mqEnqueue q msg) msg.fromPeer =
      mqPendingCount q msg.fromPeer + 1 ∧
    mqGetQueue (mqEnqueue q msg) p = mqGetQueue q p ∧
    (mqDequeue (mqEnqueue q msg) p).1 ≠ some msg := by
  have hkey := mqGetQueue_enqueue q msg
  rw [hg] at hkey
  simp only [] at hkey
  have hunch : mqGetQueue (mqEnqueue q msg) p = mqGetQueue q p := by
    rw [hkey p, if_neg hp]
  refine ⟨?_, hunch, ?_⟩
  · unfold mqPendingCount
    rw [hkey msg.fromPeer, if_pos rfl, List.length_append]
    rfl
  · rw [mqDequeue_fst, hunch]
    intro hcon
    cases hq : mqGetQueue q p with
    | nil => rw [hq] at hcon; exact Option.noConfusion hcon
    | cons x xs =>
      rw [hq] at hcon
      have hx : x = msg := Option.some.inj hcon
      exact hnot (hq ▸ (hx ▸ List.mem_cons_self x xs))

/-- Witness for C10 at a concrete group message and empty queue. -/
theorem C10_group_enqueue_under_sender_witness :
    mqPendingCount (mqEnqueue [] ⟨[1], 9, Recipient.Group [2], "hi", MessageStatus.Pending⟩) 9 =
      mqPendingCount ([] : MessageQueueT) 9 + 1 ∧
    mqGetQueue (mqEnqueue [] ⟨[1], 9, Recipient.Group [2], "hi", MessageStatus.Pending⟩) 3 =
      mqGetQueue ([] : MessageQueueT) 3 ∧
    (mqDequeue (mqEnqueue [] ⟨[1], 9, Recipient.Group [2], "hi", MessageStatus.Pending⟩) 3).1 ≠
      some ⟨[1], 9, Recipient.Group [2], "hi", MessageStatus.Pending⟩ :=
  C10_group_enqueue_under_sender [] ⟨[1], 9, Recipient.Group [2], "hi", MessageStatus.Pending⟩
    [2] 3 (by decide) (by decide) (by decide)

/-- C1: the X25519 public key `ed25519_pk_to_x25519` computes from the
published Ed25519 public key of the seed 0,1,...,31 differs from the X25519
public key `keypair_to_encryption_keys` derives from that seed — the sender
addressing this contact and the recipient unlocking its own vault disagree,
because the former hashes the public key where the latter hashes the seed. -/
theorem C1_key_derivations_disagree :
    ed25519_pk_to_x25519 (ed25519SeedToPk seedC1) ≠
      Except.ok (keypair_to_encryption_keys seedC1).1 := by
  decide

/-- SHA-512 of the empty message matches the FIPS 180-4 test vector. -/
theorem sha512_empty_vector : sha512 [] = [207, 131, 225, 53, 126, 239, 184,
    189, 241, 84, 40, 80, 214, 109, 128, 7, 214, 32, 228, 5, 11, 87, 21, 220,
    131, 244, 169, 33, 211, 108, 233, 206, 71, 208, 209, 60, 93, 133, 242,
    176, 255, 131, 24, 210, 135, 126, 236, 47, 99, 185, 49, 189, 71, 65, 122,
    129, 165, 56, 50, 122, 249, 39, 218, 62] := by
  decide

/-- Ed25519 public key of the seed 0..31, cross-checked against an RFC 8032
reference implementation. -/
theorem ed25519SeedToPk_vector : ed25519SeedToPk seedC1 =
    [3, 161, 7, 191, 243, 206, 16, 190, 29, 112, 221, 24, 231, 75, 192, 153,
     103, 228, 214, 48, 155, 165, 13, 95, 29, 220, 134, 100, 18, 85, 49, 184] := by
  decide

/-- Encryption public key the vault derives from the seed 0..31,
cross-checked against an RFC 7748 reference implementation of the same
hash-and-scalarmult pipeline. -/
theorem keypair_to_encryption_keys_vector : (keypair_to_encryption_keys seedC1).1 =
    [71, 1, 208, 132, 136, 69, 31, 84, 90, 64, 159, 181, 138, 227, 229, 133,
     129, 202, 64, 172, 63, 127, 17, 70, 152, 205, 113, 222, 172, 115, 202, 1] := by
  decide

/-- Encryption public key a peer derives from the published Ed25519 public
key of the seed 0..31 — a different key than the vault's. -/
theorem ed25519_pk_to_x25519_vector : ed25519_pk_to_x25519 (ed25519SeedToPk seedC1) =
    Except.ok [55, 158, 91, 134, 160, 7, 225, 55, 62, 114, 232, 138, 88, 212,
      116, 87, 174, 136, 45, 219, 167, 252, 167, 126, 170, 7, 111, 179, 35,
      24, 66, 5] := by
  decide

/-- HSalsa20 subkey derivation on a concrete key and input, cross-checked
against a reference implementation validated on the NaCl secretbox test
vector. -/
theorem hsalsa20_vector : hsalsa20 (List.range 32) (List.range 16) =
    [242, 165, 45, 124, 234, 43, 182, 186, 188, 50, 176, 127, 137, 226, 36,
     135, 160, 99, 194, 72, 16, 132, 255, 65, 184, 25, 15, 183, 131, 157, 80,
     28] := by
  decide

/-- Secretbox of a three-byte message under a concrete key and nonce,
cross-checked against the same reference implementation. -/
theorem secretboxSeal_vector : secretboxSeal [1, 2, 3] (List.range 24) (List.range 32) =
    [155, 237, 90, 161, 80, 225, 64, 143, 40, 90, 205, 75, 154, 253, 188,
     123, 95, 253, 59] := by
  decide

/-- The emitted receipt frame for the uuid 00010203-0405-0607-0809-0a0b0c0d0e0f
is exactly the expected ASCII bytes. -/
theorem create_receipt_vector : create_receipt (List.range 16) ReceiptType.Delivered =
    ("RCPT:D:00010203-0405-0607-0809-0a0b0c0d0e0f".toList.map Char.toNat) := by
  decide

/-- A receipt frame with discriminant `X` is rejected, as in spec scenario S6. -/
theorem parse_receipt_bad_discriminant :
    parse_receipt ("RCPT:X:00010203-0405-0607-0809-0a0b0c0d0e0f".toList.map Char.toNat) =
      none := by
  decide
